import Mathlib

/-
Verification of the splitsilly debt-settlement core.

The definitions below are a shallow embedding of `groups/api.py` and
`splitsilly/utils/expr.py`:
  * Python `dict[tuple[User, User], int]` is embedded as an association
    list `DebtMap` with the dict operations (lookup, pop, assignment)
    modelled extensionally (`dlookup`, `derase`, `dinsert`);
  * Python `int` is `Int`, `Decimal` is `Rat` (exact arithmetic; the
    28-digit context rounding of `decimal` and the IEEE rounding of the
    one `float` division in `_calculate_expense_debts` are modelled
    exactly, as the spec itself describes them);
  * `int(...)` conversion is truncation toward zero (`Int.tdiv`,
    `truncRat`);
  * exceptions are `Option`/`Except` values.
-/

namespace Splitsilly

/-- A participant id (Python `User` objects are only compared by identity,
so they are embedded as naturals). -/
abbrev UserId := Nat

/-- A directed debt edge key `(debtor, creditor)`. -/
abbrev Edge := UserId × UserId

/-- Embedding of the Python dict `Debts = dict[tuple[User, User], int]` as an
association list from edges to amounts. -/
abbrev DebtMap := List (Edge × Int)

/-- Dict lookup: `debts.get(k)` / `debts[k]` presence. -/
def dlookup (m : DebtMap) (k : Edge) : Option Int :=
  (m.find? (fun e => decide (e.1 = k))).map (fun e => e.2)

/-- Dict key removal, as performed by `debts.pop(k)`. -/
def derase (m : DebtMap) (k : Edge) : DebtMap :=
  m.filter (fun e => !(decide (e.1 = k)))

/-- Dict assignment `debts[k] = v` (extensionally: the key now maps to `v`). -/
def dinsert (m : DebtMap) (k : Edge) (v : Int) : DebtMap :=
  (k, v) :: derase m k

/-- The association list has no duplicate keys; Python dicts always satisfy
this, so it is a standing hypothesis on embedded dicts. -/
def NodupKeys (m : DebtMap) : Prop := (m.map (fun e => e.1)).Nodup

/-- No edge of the map is a self-edge `(x, x)`. -/
def NoSelfKeys (m : DebtMap) : Prop := ∀ e ∈ m, e.1.1 ≠ e.1.2

instance (m : DebtMap) : Decidable (NodupKeys m) := by
  unfold NodupKeys; infer_instance

instance (m : DebtMap) : Decidable (NoSelfKeys m) := by
  unfold NoSelfKeys; infer_instance

/-- Signed contribution of one edge entry to participant `u`'s net position:
amount owed to `u` minus amount `u` owes. -/
def contrib (u : UserId) (e : Edge × Int) : Int :=
  (if e.1.2 = u then e.2 else 0) - (if e.1.1 = u then e.2 else 0)

/-- Net position of participant `u`: total owed to `u` minus total `u` owes,
summed over all edges of the graph. -/
def net (m : DebtMap) (u : UserId) : Int := (m.map (contrib u)).sum

/-- The set of participants mentioned by the graph: the `all_users` set
comprehension collecting both endpoints of every edge key. -/
def usersOf (m : DebtMap) : List UserId :=
  (m.map (fun e => e.1.1) ++ m.map (fun e => e.1.2)).dedup

/-- The ordered pairs visited by the nested `for a in all_users: for b in
all_users` loops. -/
def allPairs (us : List UserId) : List Edge :=
  us.flatMap (fun a => us.map (fun b => (a, b)))

/-- One iteration of the body of `simplify_mutual_owing`'s nested loops, for
the ordered pair `(a, b)`: if both `(a,b)` and `(b,a)` are present, pop both
and re-add the signed difference (nothing when the difference is zero). -/
def mutualStep (m : DebtMap) (p : Edge) : DebtMap :=
  if p.1 = p.2 then m
  else
    match dlookup m (p.1, p.2), dlookup m (p.2, p.1) with
    | some x, some y =>
      let m1 := derase (derase m (p.1, p.2)) (p.2, p.1)
      let diff := x - y
      if diff = 0 then m1
      else if 0 < diff then dinsert m1 (p.1, p.2) diff
      else dinsert m1 (p.2, p.1) (-diff)
    | _, _ => m

/-- Embedding of `simplify_mutual_owing` (Pass A, mutual netting): fold the
per-pair body over every ordered pair of participants of the input graph. -/
def simplify_mutual_owing (m : DebtMap) : DebtMap :=
  (allPairs (usersOf m)).foldl mutualStep m

/-- The extensional effect of Pass A on one direction of a pair: both
directions present nets to the positive difference, one direction present is
untouched. -/
def matchNet (o1 o2 : Option Int) : Option Int :=
  match o1, o2 with
  | some x, some y => if y < x then some (x - y) else none
  | o1, none => o1
  | none, some _ => none

/-- Python set add on the `lenders_by_user` sets, embedded on lists. -/
def ladd (l : List UserId) (c : UserId) : List UserId :=
  if c ∈ l then l else c :: l

/-- Python `set.discard`. -/
def lremove (l : List UserId) (c : UserId) : List UserId :=
  l.filter (fun x => !(decide (x = c)))

/-- The `lenders_by_user` table: for each debtor, the set of its creditors. -/
abbrev Lenders := UserId → List UserId

/-- Update one debtor's creditor set. -/
def lupdate (f : Lenders) (x : UserId) (g : List UserId → List UserId) : Lenders :=
  fun z => if z = x then g (f x) else f z

/-- The initial `lenders_by_user` table built from the edge keys:
`for ower, lender in debts: lenders_by_user[ower].add(lender)`. -/
def initLenders (m : DebtMap) : Lenders :=
  m.foldl (fun f e => lupdate f e.1.1 (fun l => ladd l e.1.2)) (fun _ => [])

/-- The mutable state of `_simplify_transient_debts`: the working copy of the
graph plus the creditor table kept in sync with it. -/
structure TransState where
  debts : DebtMap
  lenders : Lenders

/-- The mutation performed once the chain `a -> b -> c` fires (both pops, the
`setdefault`-and-add on `(a, c)`, the remainder assignment, and the matching
creditor-table maintenance).  `y` is the popped amount `b_owes_c`; Python's
`pop` presupposes the key is present, which the creditor table guarantees, so
a missing key is read as 0. -/
def transApply (s : TransState) (a b c : UserId) (x : Int) : TransState :=
  let y := (dlookup s.debts (b, c)).getD 0
  let d1 := derase (derase s.debts (a, b)) (b, c)
  let l1 := lupdate (lupdate s.lenders a (fun l => lremove l b)) b
    (fun l => lremove l c)
  let vac := (dlookup d1 (a, c)).getD 0
  if y ≤ x then
    let d2 := dinsert d1 (a, c) (vac + y)
    let l2 := lupdate l1 a (fun l => ladd l c)
    if x = y then ⟨d2, l2⟩
    else ⟨dinsert d2 (a, b) (x - y), lupdate l2 a (fun l => ladd l b)⟩
  else
    ⟨dinsert (dinsert d1 (a, c) (vac + x)) (b, c) (y - x),
     lupdate (lupdate l1 a (fun l => ladd l c)) b (fun l => ladd l c)⟩

/-- One iteration of the nested loops of `_simplify_transient_debts` for the
ordered pair `(a, b)`: fire when `a` owes `b` a nonzero amount, `b` has
exactly one creditor `c`, and `a` is not `c` itself. -/
def transStep (s : TransState) (p : Edge) : TransState :=
  if p.1 = p.2 then s
  else
    match dlookup s.debts (p.1, p.2), s.lenders p.2 with
    | some x, [c] =>
      if x = 0 then s
      else if p.1 = c then s
      else transApply s p.1 p.2 c x
    | _, _ => s

/-- Embedding of `_simplify_transient_debts` (Pass B, transitive collapsing). -/
def simplify_transient_debts (m : DebtMap) : DebtMap :=
  ((allPairs (usersOf m)).foldl transStep ⟨m, initLenders m⟩).debts

/-- No debtor ever lists itself as one of its creditors. -/
def LendersNoSelf (f : Lenders) : Prop := ∀ x, x ∉ f x

/-- A sample graph used to instantiate the hypotheses of the pass theorems. -/
def exGraph1 : DebtMap := [((1, 2), 100), ((2, 1), 30), ((2, 3), 50)]

/-- One side of Python dict equality: every entry of `m1` is mapped
identically by `m2`. -/
def dle (m1 m2 : DebtMap) : Bool :=
  m1.all (fun e => dlookup m2 e.1 == some e.2)

/-- Python `new_debts == debts` on dicts: equality as key-to-value mappings. -/
def deq (m1 m2 : DebtMap) : Bool := dle m1 m2 && dle m2 m1

/-- One iteration of the `simplify_debts` loop body: Pass A then Pass B. -/
def onePass (m : DebtMap) : DebtMap :=
  simplify_transient_debts (simplify_mutual_owing m)

/-- The `for i in range(1, 11)` loop of `simplify_debts`, with the remaining
iteration count as fuel.  The boolean records whether the loop exited via
`break` (graph identical to the previous iteration); `false` means the
`for`-`else` branch ran, i.e. the non-fatal diagnostic
(`sentry_sdk.capture_message`) was emitted. -/
def simplifyLoop : Nat → DebtMap → DebtMap × Bool
  | 0, m => (m, false)
  | n + 1, m =>
    let new_debts := onePass m
    if deq new_debts m then (m, true) else simplifyLoop n new_debts

/-- Embedding of `simplify_debts`: run at most 10 iterations and return the
last computed graph whether or not a fixed point was reached. -/
def simplify_debts (m : DebtMap) : DebtMap := (simplifyLoop 10 m).1

/-- Whether the iteration converged (no diagnostic emitted). -/
def simplify_debts_converged (m : DebtMap) : Bool := (simplifyLoop 10 m).2

/-- Embedding of `Expense.Type` (`ADJUSTMENT` is retained in the enum but
marked removed in the source; the debt computation rejects it). -/
inductive ExpenseType
  | EXACT
  | PERCENTAGE
  | SHARES
  | ADJUSTMENT
deriving DecidableEq

/-- One `ExpenseSplit` row: the participant, the evaluated share value and
the signed adjustment. -/
structure SplitRow where
  user : UserId
  shares : Int
  adjustment : Int
deriving DecidableEq

/-- The fields of `Expense` read by the debt computation. -/
structure Expense where
  type : ExpenseType
  payer : UserId
  amount : Int
  exchange_rate : Rat
  splits : List SplitRow
deriving DecidableEq

/-- Embedding of `validate_expense_split` as a predicate: `true` iff the
function returns without raising `ValidationError`. -/
def validate_expense_split (t : ExpenseType) (amount : Int)
    (splits : List SplitRow) : Bool :=
  match t with
  | .EXACT => (splits.map (fun s => s.shares + s.adjustment)).sum == amount
  | .PERCENTAGE => (splits.map (fun s => s.shares)).sum == 100
  | .SHARES =>
      !(splits.all (fun s => s.shares == 0))
        && !(splits.any (fun s => decide (s.shares < 0)))
  | .ADJUSTMENT => true

/-- Python `int(q)` on an exact decimal value: truncation toward zero. -/
def truncRat (q : Rat) : Int := q.num.tdiv q.den

/-- Embedding of `_calculate_expense_debts`.  The
`int(base_amount * float(split.shares) / total_shares)` computation is
modelled exactly: truncation toward zero of the exact quotient
(`Int.tdiv`), which is the semantics the spec states.  `none` is the
`NotImplementedError` branch for the removed split type; under a validated
split `total_shares` is nonzero, so the `tdiv _ 0` default is never
reached. -/
def calculate_expense_debts_inner (e : Expense) :
    Option (List (UserId × Int)) :=
  match e.type with
  | .EXACT =>
      some (e.splits.map (fun s => (s.user, s.shares + s.adjustment)))
  | .PERCENTAGE | .SHARES =>
      let base_amount := e.amount - (e.splits.map (fun s => s.adjustment)).sum
      let total_shares := (e.splits.map (fun s => s.shares)).sum
      some (e.splits.map (fun s =>
        (s.user, (base_amount * s.shares).tdiv total_shares + s.adjustment)))
  | .ADJUSTMENT => none

/-- Embedding of `_apply_exchange_rate`: `int(amount * exchange_rate)` per
entry, `Decimal` arithmetic taken exact over the rationals. -/
def apply_exchange_rate (debts : List (UserId × Int)) (rate : Rat) :
    List (UserId × Int) :=
  debts.map (fun d => (d.1, truncRat ((d.2 : Rat) * rate)))

/-- Embedding of `calculate_expense_debts`: apply the exchange rate, then
drop the zero (falsy) amounts. -/
def calculate_expense_debts (e : Expense) : Option (List (UserId × Int)) :=
  (calculate_expense_debts_inner e).map (fun ds =>
    (apply_exchange_rate ds e.exchange_rate).filter (fun d => !(d.2 == 0)))

/-- The body of the `calculate_debts` aggregation loop: skip the payer,
create the `(borrower, payer)` entry at zero if absent, then add the debt. -/
def add_debt (payer : UserId) (g : DebtMap) (d : UserId × Int) : DebtMap :=
  if d.1 = payer then g
  else dinsert g (d.1, payer) ((dlookup g (d.1, payer)).getD 0 + d.2)

/-- One expense's contribution to the aggregation accumulator. -/
def agg_step (acc : Option DebtMap) (e : Expense) : Option DebtMap :=
  acc.bind (fun g =>
    (calculate_expense_debts e).map (fun ds => ds.foldl (add_debt e.payer) g))

/-- Embedding of `calculate_debts`: aggregate every expense's per-expense
debts into one graph; `none` when a (removed-type) expense aborts. -/
def calculate_debts (es : List Expense) : Option DebtMap :=
  es.foldl agg_step (some [])

/-- A validated EXACT expense whose negative share makes the aggregated graph
store a negative amount. -/
def exC4 : Expense := ⟨.EXACT, 2, 0, 1, [⟨1, -500, 0⟩, ⟨2, 500, 0⟩]⟩

/-- A one-expense group for the C4 witness. -/
def exC4w : Expense := ⟨.SHARES, 1, 90, 1, [⟨1, 1, 0⟩, ⟨2, 1, 0⟩, ⟨3, 1, 0⟩]⟩

/-- A validated EXACT expense with exchange rate 2. -/
def exC5 : Expense := ⟨.EXACT, 99, 100, 2, [⟨1, 100, 0⟩]⟩

/-- An EXACT expense for the C5 witness. -/
def exC5w : Expense := ⟨.EXACT, 9, 100, 1, [⟨1, 60, 0⟩, ⟨2, 40, 0⟩]⟩

/-- A validated SHARES expense whose adjustments exceed the amount (negative
base). -/
def exC6a : Expense := ⟨.SHARES, 99, 10, 1, [⟨1, 1, 11⟩, ⟨2, 1, 0⟩]⟩

/-- A validated PERCENTAGE expense with negative percentage shares. -/
def exC6b : Expense :=
  ⟨.PERCENTAGE, 99, 1, 1, [⟨1, -99, 0⟩, ⟨2, -99, 0⟩, ⟨3, 298, 0⟩]⟩

/-- A validated SHARES expense for the C6 witness (amount 200, three equal
shares; the remainder is 2). -/
def exC6w : Expense := ⟨.SHARES, 9, 200, 1, [⟨1, 1, 0⟩, ⟨2, 1, 0⟩, ⟨3, 1, 0⟩]⟩

/-- Source location (1-based line and column) as carried by tokens and
syntax errors. -/
structure Location where
  line : Nat
  column : Nat
deriving DecidableEq

inductive TokenType
  | NUMBER
  | PLUS
  | MINUS
  | STAR
  | SLASH
  | NAME
  | LPAREN
  | RPAREN
deriving DecidableEq

/-- A token: its type, raw text (as the character list the lexer collected)
and start location. -/
structure Token where
  type : TokenType
  text : List Char
  location : Location
deriving DecidableEq

/-- The messages of the expression-language `SyntaxError`s, one constructor
per `raise` site, carrying the interpolated data (so the unknown-name error
names the name). -/
inductive ErrMsg
  | unexpectedCharacter (c : Char)
  | numberWithMultipleDecimals
  | unexpectedEndOfInput
  | unknownName (name : List Char)
  | expectedRightParenthesis
  | unexpectedToken (text : List Char)
deriving DecidableEq

/-- What `evaluate` can raise: a `SyntaxError` with an optional location, the
`decimal` division-by-zero error raised by `operator.truediv`, the
`_undefined` internal exception of the `RPAREN` pseudo-operator, or fuel
exhaustion of the embedding (never reached with the fuel `evaluate`
supplies). -/
inductive ExprError
  | syntaxErr (msg : ErrMsg) (location : Option Location)
  | divisionByZero
  | operationNotDefined
  | outOfFuel
deriving DecidableEq

instance {ε α : Type} [DecidableEq ε] [DecidableEq α] :
    DecidableEq (Except ε α) := fun a b =>
  match a, b with
  | .error e1, .error e2 =>
    if h : e1 = e2 then .isTrue (congrArg Except.error h)
    else .isFalse (fun hc => h (Except.error.inj hc))
  | .ok v1, .ok v2 =>
    if h : v1 = v2 then .isTrue (congrArg Except.ok h)
    else .isFalse (fun hc => h (Except.ok.inj hc))
  | .error _, .ok _ => .isFalse (fun hc => Except.noConfusion hc)
  | .ok _, .error _ => .isFalse (fun hc => Except.noConfusion hc)

/-- The `_ONE_CHAR` table. -/
def ONE_CHAR (c : Char) : Option TokenType :=
  if c == '+' then some .PLUS
  else if c == '-' then some .MINUS
  else if c == '*' then some .STAR
  else if c == '/' then some .SLASH
  else if c == '(' then some .LPAREN
  else if c == ')' then some .RPAREN
  else none

/-- Python `str.isspace` on the ASCII inputs of the grammar. -/
def isSpacePy (c : Char) : Bool :=
  c == ' ' || c == '\t' || c == '\n' || c == '\r'

/-- Python `str.isalpha` on ASCII. -/
def isAlphaPy (c : Char) : Bool := c.isAlpha

/-- Python `str.isalnum` on ASCII. -/
def isAlnumPy (c : Char) : Bool := c.isAlpha || c.isDigit

/-- Python `str.isnumeric` on ASCII. -/
def isNumericPy (c : Char) : Bool := c.isDigit

/-- The name-lexing inner loop: consume alphanumerics and underscores,
advancing the column, and stop (unpeek) at the first other character. -/
def takeName : List Char → Nat → List Char → List Char × Nat × List Char
  | [], col, acc => (acc, col, [])
  | c :: rest, col, acc =>
    if isAlnumPy c || c == '_' then takeName rest (col + 1) (acc ++ [c])
    else (acc, col, c :: rest)

/-- The number-lexing inner loop: consume digits and at most one decimal
point; a second decimal point raises a located `SyntaxError`. -/
def takeNum : List Char → Nat → List Char → Bool → Location →
    Except ExprError (List Char × Nat × List Char)
  | [], col, acc, _, _ => .ok (acc, col, [])
  | c :: rest, col, acc, hasDot, loc =>
    if c == '.' then
      if hasDot then .error (.syntaxErr .numberWithMultipleDecimals (some loc))
      else takeNum rest (col + 1) (acc ++ [c]) true loc
    else if isNumericPy c then takeNum rest (col + 1) (acc ++ [c]) hasDot loc
    else .ok (acc, col, c :: rest)

/-- Embedding of the `tokenize` generator, run eagerly with fuel (each step
consumes at least one character, so the fuel `tokenize` supplies never runs
out).  Laziness is observable only on inputs whose parse stops before a later
lexical error, which no claim involves. -/
def tokenizeGo : Nat → List Char → Nat → Nat → Except ExprError (List Token)
  | _, [], _, _ => .ok []
  | 0, _ :: _, _, _ => .error .outOfFuel
  | fuel + 1, c :: rest, line, col =>
    let loc : Location := ⟨line, col⟩
    let line' := if c == '\n' then line + 1 else line
    let col' := if c == '\n' then 1 else col + 1
    if isSpacePy c then tokenizeGo fuel rest line' col'
    else
      match ONE_CHAR c with
      | some tt =>
        (tokenizeGo fuel rest line' col').map (fun ts => ⟨tt, [c], loc⟩ :: ts)
      | none =>
        if isAlphaPy c then
          match takeName rest col' [c] with
          | (name, col2, rest2) =>
            (tokenizeGo fuel rest2 line' col2).map
              (fun ts => ⟨.NAME, name, loc⟩ :: ts)
        else if isNumericPy c || c == '.' then
          match takeNum rest col' [c] (c == '.') loc with
          | .error e => .error e
          | .ok (num, col2, rest2) =>
            (tokenizeGo fuel rest2 line' col2).map
              (fun ts => ⟨.NUMBER, num, loc⟩ :: ts)
        else .error (.syntaxErr (.unexpectedCharacter c) (some loc))

def tokenize (cs : List Char) : Except ExprError (List Token) :=
  tokenizeGo (cs.length + 1) cs 1 1

def digitVal (c : Char) : Nat :=
  if c == '0' then 0 else if c == '1' then 1 else if c == '2' then 2
  else if c == '3' then 3 else if c == '4' then 4 else if c == '5' then 5
  else if c == '6' then 6 else if c == '7' then 7 else if c == '8' then 8
  else 9

def digitsToNat (cs : List Char) : Nat :=
  cs.foldl (fun a c => 10 * a + digitVal c) 0

/-- Python `Decimal(text)` on the number texts the lexer produces: integer
part, optional dot, fractional part, read exactly. -/
def parseDecimal (cs : List Char) : Rat :=
  let intPart := cs.takeWhile (fun c => !(c == '.'))
  let rest := cs.dropWhile (fun c => !(c == '.'))
  let frac := rest.drop 1
  (digitsToNat intPart : Rat) + (digitsToNat frac : Rat) / (10 : Rat) ^ frac.length

/-- The binding power and operation of a binary operator (`_BinaryOp`); the
operation may raise (division by zero, the `_undefined` stub). -/
structure BinaryOp where
  lbp : Nat
  operation : Rat → Rat → Except ExprError Rat
  leftAssoc : Bool

/-- `_UnaryOp`. -/
structure UnaryOp where
  rbp : Nat
  operation : Rat → Rat

/-- The `_BINARY_OPS` table. -/
def BINARY_OPS (t : TokenType) : Option BinaryOp :=
  match t with
  | .RPAREN => some ⟨0, fun _ _ => .error .operationNotDefined, true⟩
  | .PLUS => some ⟨1, fun a b => .ok (a + b), true⟩
  | .MINUS => some ⟨1, fun a b => .ok (a - b), true⟩
  | .STAR => some ⟨2, fun a b => .ok (a * b), true⟩
  | .SLASH => some ⟨2, fun a b =>
      if b == 0 then .error .divisionByZero else .ok (a / b), true⟩
  | _ => none

/-- The `_UNARY_OPS` table. -/
def UNARY_OPS (t : TokenType) : Option UnaryOp :=
  match t with
  | .LPAREN => some ⟨0, fun x => x⟩
  | .MINUS => some ⟨3, fun x => -x⟩
  | _ => none

/-- The evaluator's environment: name to decimal value. -/
abbrev Env := List (List Char × Rat)

/-- Python `env[token.text]` presence. -/
def envLookup (env : Env) (name : List Char) : Option Rat :=
  (env.find? (fun p => p.1 == name)).map (fun p => p.2)

mutual

/-- Embedding of `_evaluate_expr` (fuel-structural; the token stream is
passed and returned explicitly in place of the shared `Peekable`). -/
def evaluateExpr : Nat → Env → List Token → Nat →
    Except ExprError (Rat × List Token)
  | 0, _, _, _ => .error .outOfFuel
  | fuel + 1, env, tokens, rbp =>
    match tokens with
    | [] => .error (.syntaxErr .unexpectedEndOfInput none)
    | tok :: rest =>
      match nud fuel env rest tok with
      | .error e => .error e
      | .ok (left, rest') => evalLoop fuel env left rest' rbp

/-- The `while` loop of `_evaluate_expr`: keep folding in binary operators
while the peeked token is no binary operator or binds tighter than `rbp`. -/
def evalLoop : Nat → Env → Rat → List Token → Nat →
    Except ExprError (Rat × List Token)
  | 0, _, _, _, _ => .error .outOfFuel
  | fuel + 1, env, left, tokens, rbp =>
    match tokens with
    | [] => .ok (left, [])
    | tok :: rest =>
      let proceed : Bool :=
        match BINARY_OPS tok.type with
        | none => true
        | some op => decide (rbp < op.lbp)
      if proceed then
        match led fuel env rest left tok with
        | .error e => .error e
        | .ok (left', rest') => evalLoop fuel env left' rest' rbp
      else .ok (left, tok :: rest)

/-- Embedding of `_nud`. -/
def nud : Nat → Env → List Token → Token → Except ExprError (Rat × List Token)
  | 0, _, _, _ => .error .outOfFuel
  | fuel + 1, env, tokens, token =>
    if token.type == .NUMBER then .ok (parseDecimal token.text, tokens)
    else if token.type == .NAME then
      match envLookup env token.text with
      | some v => .ok (v, tokens)
      | none =>
        .error (.syntaxErr (.unknownName token.text) (some token.location))
    else
      match UNARY_OPS token.type with
      | some op =>
        match evaluateExpr fuel env tokens op.rbp with
        | .error e => .error e
        | .ok (v, rest) =>
          let result := op.operation v
          if token.type == .LPAREN then
            match rest with
            | rparen :: rest2 =>
              if rparen.type == .RPAREN then .ok (result, rest2)
              else .error (.syntaxErr .expectedRightParenthesis
                (some rparen.location))
            | [] =>
              .error (.syntaxErr .expectedRightParenthesis
                (some ⟨token.location.line,
                  token.location.column + token.text.length + 1⟩))
          else .ok (result, rest)
      | none =>
        .error (.syntaxErr (.unexpectedToken token.text) (some token.location))

/-- Embedding of `_led`. -/
def led : Nat → Env → List Token → Rat → Token →
    Except ExprError (Rat × List Token)
  | 0, _, _, _, _ => .error .outOfFuel
  | fuel + 1, env, tokens, left, token =>
    match BINARY_OPS token.type with
    | some op =>
      match evaluateExpr fuel env tokens
          (if op.leftAssoc then op.lbp else op.lbp - 1) with
      | .error e => .error e
      | .ok (right, rest) =>
        match op.operation left right with
        | .error e => .error e
        | .ok v => .ok (v, rest)
    | none =>
      .error (.syntaxErr (.unexpectedToken token.text) (some token.location))

end

/-- Embedding of `evaluate`: lex, then parse-and-evaluate in one pass; any
tokens the loop leaves unconsumed are dropped, as in the source. -/
def evaluate (raw : List Char) (env : Env) : Except ExprError Rat :=
  match tokenize raw with
  | .error e => .error e
  | .ok toks =>
    match evaluateExpr (2 * toks.length + 2) env toks 0 with
    | .error e => .error e
    | .ok (v, _) => .ok v

/-- The decimal digit characters, indexed by value. -/
def digitChar (d : Nat) : Char :=
  if d = 0 then '0' else if d = 1 then '1' else if d = 2 then '2'
  else if d = 3 then '3' else if d = 4 then '4' else if d = 5 then '5'
  else if d = 6 then '6' else if d = 7 then '7' else if d = 8 then '8' else '9'

/-- Python `str(n)` for a natural number: its decimal digits. -/
def natToChars (n : Nat) : List Char :=
  if n = 0 then ['0'] else (Nat.digits 10 n).reverse.map digitChar

/-- Python `str(n)` for an integer. -/
def strOfInt (n : Int) : List Char :=
  if n < 0 then '-' :: natToChars n.natAbs else natToChars n.natAbs

theorem dlookup_nil (k : Edge) : dlookup [] k = none := rfl

theorem dlookup_cons (e : Edge × Int) (m : DebtMap) (k : Edge) :
    dlookup (e :: m) k = if e.1 = k then some e.2 else dlookup m k := by
  by_cases h : e.1 = k
  · simp [dlookup, List.find?_cons_of_pos, h]
  · simp [dlookup, List.find?_cons_of_neg, h]

theorem derase_cons_pos (e : Edge × Int) (m : DebtMap) (k : Edge) (h : e.1 = k) :
    derase (e :: m) k = derase m k := by
  simp [derase, List.filter_cons, h]

theorem derase_cons_neg (e : Edge × Int) (m : DebtMap) (k : Edge) (h : e.1 ≠ k) :
    derase (e :: m) k = e :: derase m k := by
  simp [derase, List.filter_cons, h]

theorem dlookup_derase_ne (m : DebtMap) (k k' : Edge) (h : k' ≠ k) :
    dlookup (derase m k) k' = dlookup m k' := by
  induction m with
  | nil => rfl
  | cons e m ih =>
    by_cases he : e.1 = k
    · have hne : e.1 ≠ k' := by rw [he]; exact fun hc => h hc.symm
      rw [derase_cons_pos e m k he, ih, dlookup_cons, if_neg hne]
    · rw [derase_cons_neg e m k he, dlookup_cons, dlookup_cons, ih]

theorem dlookup_eq_none_of_not_mem_keys (m : DebtMap) (k : Edge)
    (h : ∀ e ∈ m, e.1 ≠ k) : dlookup m k = none := by
  have hfind : m.find? (fun e => decide (e.1 = k)) = none := by
    rw [List.find?_eq_none]
    intro e he
    simpa using h e he
  unfold dlookup
  rw [hfind]
  rfl

theorem dlookup_derase_self (m : DebtMap) (k : Edge) :
    dlookup (derase m k) k = none := by
  apply dlookup_eq_none_of_not_mem_keys
  intro e he
  have := List.of_mem_filter he
  simpa using this

theorem dlookup_dinsert_self (m : DebtMap) (k : Edge) (v : Int) :
    dlookup (dinsert m k v) k = some v := by
  simp [dinsert, dlookup_cons]

theorem dlookup_dinsert_ne (m : DebtMap) (k k' : Edge) (v : Int) (h : k' ≠ k) :
    dlookup (dinsert m k v) k' = dlookup m k' := by
  have hne : k ≠ k' := fun hc => h hc.symm
  rw [dinsert, dlookup_cons, if_neg hne]
  exact dlookup_derase_ne m k k' h

theorem derase_sublist (m : DebtMap) (k : Edge) : (derase m k).Sublist m :=
  List.filter_sublist m

theorem mem_of_mem_derase {m : DebtMap} {k : Edge} {e : Edge × Int}
    (h : e ∈ derase m k) : e ∈ m :=
  (derase_sublist m k).mem h

theorem mem_dinsert {m : DebtMap} {k : Edge} {v : Int} {e : Edge × Int}
    (h : e ∈ dinsert m k v) : e = (k, v) ∨ e ∈ m := by
  rcases List.mem_cons.mp h with h | h
  · exact Or.inl h
  · exact Or.inr (mem_of_mem_derase h)

theorem nodupKeys_derase {m : DebtMap} (k : Edge) (h : NodupKeys m) :
    NodupKeys (derase m k) := by
  unfold NodupKeys at h ⊢
  exact ((derase_sublist m k).map (fun e => e.1)).nodup h

theorem nodupKeys_dinsert {m : DebtMap} (k : Edge) (v : Int) (h : NodupKeys m) :
    NodupKeys (dinsert m k v) := by
  unfold NodupKeys dinsert
  rw [List.map_cons, List.nodup_cons]
  refine ⟨?_, nodupKeys_derase k h⟩
  intro hk
  rcases List.mem_map.mp hk with ⟨e, he, hek⟩
  have := List.of_mem_filter he
  simp [hek] at this

theorem noSelfKeys_derase {m : DebtMap} (k : Edge) (h : NoSelfKeys m) :
    NoSelfKeys (derase m k) := fun e he => h e (mem_of_mem_derase he)

theorem noSelfKeys_dinsert {m : DebtMap} {k : Edge} (v : Int)
    (h : NoSelfKeys m) (hk : k.1 ≠ k.2) : NoSelfKeys (dinsert m k v) := by
  intro e he
  rcases mem_dinsert he with rfl | he'
  · exact hk
  · exact h e he'

theorem contrib_zero (u : UserId) (k : Edge) : contrib u (k, 0) = 0 := by
  simp [contrib]

theorem contrib_eta (u : UserId) (e : Edge × Int) :
    contrib u (e.1, e.2) = contrib u e := rfl

theorem net_nil (u : UserId) : net [] u = 0 := rfl

theorem net_cons (e : Edge × Int) (m : DebtMap) (u : UserId) :
    net (e :: m) u = contrib u e + net m u := by
  simp [net]

theorem net_derase (m : DebtMap) (k : Edge) (u : UserId) (h : NodupKeys m) :
    net (derase m k) u = net m u - contrib u (k, (dlookup m k).getD 0) := by
  induction m with
  | nil => simp [derase, contrib_zero, net_nil, dlookup_nil]
  | cons e m ih =>
    have hnd : NodupKeys m := by
      unfold NodupKeys at h ⊢
      exact (List.nodup_cons.mp (by simpa using h)).2
    have hmem : (fun x => x.1) e ∉ m.map (fun x => x.1) := by
      unfold NodupKeys at h
      exact (List.nodup_cons.mp (by simpa using h)).1
    by_cases he : e.1 = k
    · have hnone : dlookup m k = none := by
        apply dlookup_eq_none_of_not_mem_keys
        intro x hx hxk
        exact hmem (List.mem_map.mpr ⟨x, hx, by simp [hxk, he]⟩)
      have hder : derase m k = m := by
        unfold derase
        apply List.filter_eq_self.mpr
        intro x hx
        simp only [Bool.not_eq_true', decide_eq_false_iff_not]
        intro hxk
        exact hmem (List.mem_map.mpr ⟨x, hx, by simp [hxk, he]⟩)
      rw [derase_cons_pos e m k he, hder, net_cons, dlookup_cons, if_pos he]
      have : contrib u (k, e.2) = contrib u e := by rw [← he, contrib_eta]
      simp [this]
    · rw [derase_cons_neg e m k he, net_cons, net_cons, ih hnd, dlookup_cons,
        if_neg he]
      ring

theorem net_dinsert (m : DebtMap) (k : Edge) (v : Int) (u : UserId) :
    net (dinsert m k v) u = net (derase m k) u + contrib u (k, v) := by
  simp [dinsert, net_cons]
  ring

theorem net_dinsert_full (m : DebtMap) (k : Edge) (v : Int) (u : UserId)
    (h : NodupKeys m) :
    net (dinsert m k v) u
      = net m u - contrib u (k, (dlookup m k).getD 0) + contrib u (k, v) := by
  rw [net_dinsert, net_derase m k u h]

theorem mem_allPairs {us : List UserId} {p q : UserId} :
    (p, q) ∈ allPairs us ↔ p ∈ us ∧ q ∈ us := by
  simp [allPairs]

theorem mem_usersOf_of_dlookup {m : DebtMap} {p q : UserId} {x : Int}
    (h : dlookup m (p, q) = some x) : p ∈ usersOf m ∧ q ∈ usersOf m := by
  unfold dlookup at h
  rcases Option.map_eq_some'.mp h with ⟨e, hfind, _⟩
  have hmem : e ∈ m := List.mem_of_find?_eq_some hfind
  have hkey : e.1 = (p, q) := by
    have := List.find?_some hfind
    simpa using this
  constructor
  · unfold usersOf
    rw [List.mem_dedup]
    exact List.mem_append.mpr (Or.inl (List.mem_map.mpr ⟨e, hmem, by rw [hkey]⟩))
  · unfold usersOf
    rw [List.mem_dedup]
    exact List.mem_append.mpr (Or.inr (List.mem_map.mpr ⟨e, hmem, by rw [hkey]⟩))

theorem mutualStep_self_lookup (m : DebtMap) (p : Edge) (r : UserId) :
    dlookup (mutualStep m p) (r, r) = dlookup m (r, r) := by
  unfold mutualStep
  by_cases hp : p.1 = p.2
  · rw [if_pos hp]
  · rw [if_neg hp]
    cases h1 : dlookup m (p.1, p.2) with
    | none => rfl
    | some x =>
      cases h2 : dlookup m (p.2, p.1) with
      | none => rfl
      | some y =>
        simp only []
        have hne1 : (r, r) ≠ (p.1, p.2) := by
          intro hc
          apply hp
          have h1 : r = p.1 := congrArg Prod.fst hc
          have h2 : r = p.2 := congrArg Prod.snd hc
          rw [← h1, ← h2]
        have hne2 : (r, r) ≠ (p.2, p.1) := by
          intro hc
          apply hp
          have h1 : r = p.2 := congrArg Prod.fst hc
          have h2 : r = p.1 := congrArg Prod.snd hc
          rw [← h1, ← h2]
        by_cases hd : x - y = 0
        · rw [if_pos hd, dlookup_derase_ne _ _ _ hne2, dlookup_derase_ne _ _ _ hne1]
        · rw [if_neg hd]
          by_cases hpos : 0 < x - y
          · rw [if_pos hpos, dlookup_dinsert_ne _ _ _ _ hne1,
              dlookup_derase_ne _ _ _ hne2, dlookup_derase_ne _ _ _ hne1]
          · rw [if_neg hpos, dlookup_dinsert_ne _ _ _ _ hne2,
              dlookup_derase_ne _ _ _ hne2, dlookup_derase_ne _ _ _ hne1]

/-- The pair-`p` loop body leaves every key other than `(p.1,p.2)` and
`(p.2,p.1)` untouched. -/
theorem mutualStep_lookup_other (m : DebtMap) (p : Edge) (k : Edge)
    (h1 : k ≠ (p.1, p.2)) (h2 : k ≠ (p.2, p.1)) :
    dlookup (mutualStep m p) k = dlookup m k := by
  unfold mutualStep
  by_cases hp : p.1 = p.2
  · rw [if_pos hp]
  · rw [if_neg hp]
    cases hx : dlookup m (p.1, p.2) with
    | none => rfl
    | some x =>
      cases hy : dlookup m (p.2, p.1) with
      | none => rfl
      | some y =>
        simp only []
        by_cases hd : x - y = 0
        · rw [if_pos hd, dlookup_derase_ne _ _ _ h2, dlookup_derase_ne _ _ _ h1]
        · rw [if_neg hd]
          by_cases hpos : 0 < x - y
          · rw [if_pos hpos, dlookup_dinsert_ne _ _ _ _ h1,
              dlookup_derase_ne _ _ _ h2, dlookup_derase_ne _ _ _ h1]
          · rw [if_neg hpos, dlookup_dinsert_ne _ _ _ _ h2,
              dlookup_derase_ne _ _ _ h2, dlookup_derase_ne _ _ _ h1]

/-- The pair body is a no-op unless both directions are present. -/
theorem mutualStep_eq_of_none (m : DebtMap) (r : Edge)
    (h : dlookup m (r.1, r.2) = none ∨ dlookup m (r.2, r.1) = none) :
    mutualStep m r = m := by
  unfold mutualStep
  by_cases hp : r.1 = r.2
  · rw [if_pos hp]
  · rw [if_neg hp]
    rcases h with h | h
    · rw [h]
    · rw [h]
      cases dlookup m (r.1, r.2) <;> rfl

/-- The effect of the pair body when both directions are present. -/
theorem mutualStep_fire (m : DebtMap) (a b : UserId) (hab : a ≠ b) (x y : Int)
    (hx : dlookup m (a, b) = some x) (hy : dlookup m (b, a) = some y) :
    dlookup (mutualStep m (a, b)) (a, b) = (if y < x then some (x - y) else none)
      ∧ dlookup (mutualStep m (a, b)) (b, a)
          = (if x < y then some (y - x) else none) := by
  have hne : ((b, a) : Edge) ≠ (a, b) := by
    intro hc
    exact hab (congrArg Prod.snd hc)
  have hne' : ((a, b) : Edge) ≠ (b, a) := by
    intro hc
    exact hab (congrArg Prod.fst hc)
  unfold mutualStep
  simp only [if_neg hab]
  rw [show dlookup m ((a, b).1, (a, b).2) = some x from hx,
    show dlookup m ((a, b).2, (a, b).1) = some y from hy]
  simp only []
  by_cases hd : x - y = 0
  · have hxy : x = y := by omega
    rw [if_pos hd]
    constructor
    · rw [dlookup_derase_ne _ _ _ hne', dlookup_derase_self, if_neg (by omega)]
    · rw [dlookup_derase_self, if_neg (by omega)]
  · rw [if_neg hd]
    by_cases hpos : 0 < x - y
    · rw [if_pos hpos]
      constructor
      · rw [dlookup_dinsert_self, if_pos (by omega)]
      · rw [dlookup_dinsert_ne _ _ _ _ hne, dlookup_derase_self,
          if_neg (by omega)]
    · rw [if_neg hpos]
      constructor
      · rw [dlookup_dinsert_ne _ _ _ _ hne', dlookup_derase_ne _ _ _ hne',
          dlookup_derase_self, if_neg (by omega)]
      · rw [dlookup_dinsert_self, if_pos (by omega), show -(x - y) = y - x by ring]

/-- Once at most one direction of the pair is present, no later iteration of
Pass A touches either direction. -/
theorem foldA_frozen (l : List Edge) (m : DebtMap) (p q : UserId)
    (h : dlookup m (p, q) = none ∨ dlookup m (q, p) = none) :
    dlookup (l.foldl mutualStep m) (p, q) = dlookup m (p, q)
      ∧ dlookup (l.foldl mutualStep m) (q, p) = dlookup m (q, p) := by
  induction l generalizing m with
  | nil => exact ⟨rfl, rfl⟩
  | cons r l ih =>
    rw [List.foldl_cons]
    by_cases hr : (p, q) = (r.1, r.2) ∨ (p, q) = (r.2, r.1)
    · have hstep : mutualStep m r = m := by
        apply mutualStep_eq_of_none
        rcases hr with hr | hr
        · rcases h with h | h
          · exact Or.inl (by rw [← hr]; exact h)
          · exact Or.inr (by
              have : ((q, p) : Edge) = (r.2, r.1) := by
                rw [Prod.ext_iff] at hr ⊢
                exact ⟨hr.2, hr.1⟩
              rw [← this]; exact h)
        · rcases h with h | h
          · exact Or.inr (by rw [← hr]; exact h)
          · exact Or.inl (by
              have : ((q, p) : Edge) = (r.1, r.2) := by
                rw [Prod.ext_iff] at hr ⊢
                exact ⟨hr.2, hr.1⟩
              rw [← this]; exact h)
      rw [hstep]
      exact ih m h
    · push_neg at hr
      have hq1 : ((q, p) : Edge) ≠ (r.1, r.2) := by
        intro hc
        apply hr.2
        rw [Prod.ext_iff] at hc ⊢
        exact ⟨hc.2, hc.1⟩
      have hq2 : ((q, p) : Edge) ≠ (r.2, r.1) := by
        intro hc
        apply hr.1
        rw [Prod.ext_iff] at hc ⊢
        exact ⟨hc.2, hc.1⟩
      have e1 := mutualStep_lookup_other m r (p, q) hr.1 hr.2
      have e2 := mutualStep_lookup_other m r (q, p) hq1 hq2
      have ih' := ih (mutualStep m r) (by rw [e1, e2]; exact h)
      rw [ih'.1, ih'.2, e1, e2]
      exact ⟨rfl, rfl⟩

/-- After the fold visits the pair at least once, the lookup in direction
`(p, q)` is exactly the mutual netting of the two input directions. -/
theorem foldA_char (l : List Edge) (m : DebtMap) (p q : UserId) (hpq : p ≠ q)
    (hl : (p, q) ∈ l ∨ (q, p) ∈ l) :
    dlookup (l.foldl mutualStep m) (p, q)
      = matchNet (dlookup m (p, q)) (dlookup m (q, p)) := by
  induction l generalizing m with
  | nil => simp at hl
  | cons r l ih =>
    rw [List.foldl_cons]
    cases hx : dlookup m (p, q) with
    | none =>
      have hfr := foldA_frozen (r :: l) m p q (Or.inl hx)
      rw [List.foldl_cons] at hfr
      rw [hfr.1, hx]
      cases hy : dlookup m (q, p) <;> rfl
    | some x =>
      cases hy : dlookup m (q, p) with
      | none =>
        have hfr := foldA_frozen (r :: l) m p q (Or.inr hy)
        rw [List.foldl_cons] at hfr
        rw [hfr.1, hx]
        rfl
      | some y =>
        by_cases hr1 : r = ((p, q) : Edge)
        · subst hr1
          have hfire := mutualStep_fire m p q hpq x y hx hy
          have hone : dlookup (mutualStep m (p, q)) (p, q) = none
              ∨ dlookup (mutualStep m (p, q)) (q, p) = none := by
            by_cases hlt : y < x
            · exact Or.inr (by rw [hfire.2, if_neg (by omega)])
            · exact Or.inl (by rw [hfire.1, if_neg hlt])
          have hfr := foldA_frozen l (mutualStep m (p, q)) p q hone
          rw [hfr.1, hfire.1]
          rfl
        · by_cases hr2 : r = ((q, p) : Edge)
          · subst hr2
            have hfire := mutualStep_fire m q p (fun hc => hpq hc.symm) y x hy hx
            have hone : dlookup (mutualStep m (q, p)) (p, q) = none
                ∨ dlookup (mutualStep m (q, p)) (q, p) = none := by
              by_cases hlt : y < x
              · exact Or.inr (by rw [hfire.1, if_neg (by omega)])
              · exact Or.inl (by rw [hfire.2, if_neg (by omega)])
            have hfr := foldA_frozen l (mutualStep m (q, p)) p q hone
            rw [hfr.1, hfire.2]
            rfl
          · have hk1 : ((p, q) : Edge) ≠ (r.1, r.2) := fun hc => hr1 (by
              rw [Prod.ext_iff] at hc ⊢
              exact ⟨hc.1.symm, hc.2.symm⟩)
            have hk2 : ((p, q) : Edge) ≠ (r.2, r.1) := fun hc => hr2 (by
              rw [Prod.ext_iff] at hc ⊢
              exact ⟨hc.2.symm, hc.1.symm⟩)
            have hq1 : ((q, p) : Edge) ≠ (r.1, r.2) := fun hc => hr2 (by
              rw [Prod.ext_iff] at hc ⊢
              exact ⟨hc.1.symm, hc.2.symm⟩)
            have hq2 : ((q, p) : Edge) ≠ (r.2, r.1) := fun hc => hr1 (by
              rw [Prod.ext_iff] at hc ⊢
              exact ⟨hc.2.symm, hc.1.symm⟩)
            have hl' : (p, q) ∈ l ∨ (q, p) ∈ l := by
              rcases hl with hl | hl
              · rcases List.mem_cons.mp hl with hc | hc
                · exact absurd hc.symm hr1
                · exact Or.inl hc
              · rcases List.mem_cons.mp hl with hc | hc
                · exact absurd hc.symm hr2
                · exact Or.inr hc
            rw [ih (mutualStep m r) hl',
              mutualStep_lookup_other m r (p, q) hk1 hk2,
              mutualStep_lookup_other m r (q, p) hq1 hq2, hx, hy]

/-- Extensional characterization of `simplify_mutual_owing` off the diagonal:
the output amount in direction `(p, q)` is the mutual netting of the two input
directions. -/
theorem simplify_mutual_owing_lookup (m : DebtMap) (p q : UserId) (hpq : p ≠ q) :
    dlookup (simplify_mutual_owing m) (p, q)
      = matchNet (dlookup m (p, q)) (dlookup m (q, p)) := by
  unfold simplify_mutual_owing
  cases hx : dlookup m (p, q) with
  | none =>
    cases hy : dlookup m (q, p) with
    | none =>
      have hfr := foldA_frozen (allPairs (usersOf m)) m p q (Or.inl hx)
      rw [hfr.1, hx]
      rfl
    | some y =>
      have hin : (q, p) ∈ allPairs (usersOf m) := by
        have := mem_usersOf_of_dlookup hy
        exact mem_allPairs.mpr ⟨this.1, this.2⟩
      rw [foldA_char _ m p q hpq (Or.inr hin), hx, hy]
  | some x =>
    have hin : (p, q) ∈ allPairs (usersOf m) := by
      have := mem_usersOf_of_dlookup hx
      exact mem_allPairs.mpr ⟨this.1, this.2⟩
    rw [foldA_char _ m p q hpq (Or.inl hin), hx]

/-- Pass A never touches a diagonal key. -/
theorem simplify_mutual_owing_lookup_self (m : DebtMap) (r : UserId) :
    dlookup (simplify_mutual_owing m) (r, r) = dlookup m (r, r) := by
  unfold simplify_mutual_owing
  generalize allPairs (usersOf m) = l
  induction l generalizing m with
  | nil => rfl
  | cons e l ih =>
    rw [List.foldl_cons, ih (mutualStep m e), mutualStep_self_lookup]

theorem mutualStep_nodupKeys (m : DebtMap) (p : Edge) (h : NodupKeys m) :
    NodupKeys (mutualStep m p) := by
  unfold mutualStep
  by_cases hp : p.1 = p.2
  · rw [if_pos hp]; exact h
  · rw [if_neg hp]
    cases dlookup m (p.1, p.2) with
    | none => exact h
    | some x =>
      cases dlookup m (p.2, p.1) with
      | none => exact h
      | some y =>
        simp only []
        have hm1 : NodupKeys (derase (derase m (p.1, p.2)) (p.2, p.1)) :=
          nodupKeys_derase _ (nodupKeys_derase _ h)
        by_cases hd : x - y = 0
        · rw [if_pos hd]; exact hm1
        · rw [if_neg hd]
          by_cases hpos : 0 < x - y
          · rw [if_pos hpos]; exact nodupKeys_dinsert _ _ hm1
          · rw [if_neg hpos]; exact nodupKeys_dinsert _ _ hm1

theorem mutualStep_noSelfKeys (m : DebtMap) (p : Edge) (h : NoSelfKeys m) :
    NoSelfKeys (mutualStep m p) := by
  unfold mutualStep
  by_cases hp : p.1 = p.2
  · rw [if_pos hp]; exact h
  · rw [if_neg hp]
    cases dlookup m (p.1, p.2) with
    | none => exact h
    | some x =>
      cases dlookup m (p.2, p.1) with
      | none => exact h
      | some y =>
        simp only []
        have hm1 : NoSelfKeys (derase (derase m (p.1, p.2)) (p.2, p.1)) :=
          noSelfKeys_derase _ (noSelfKeys_derase _ h)
        by_cases hd : x - y = 0
        · rw [if_pos hd]; exact hm1
        · rw [if_neg hd]
          by_cases hpos : 0 < x - y
          · rw [if_pos hpos]
            exact noSelfKeys_dinsert _ hm1 hp
          · rw [if_neg hpos]
            exact noSelfKeys_dinsert _ hm1 (fun hc => hp hc.symm)

theorem mutualStep_net (m : DebtMap) (p : Edge) (hnd : NodupKeys m)
    (u : UserId) : net (mutualStep m p) u = net m u := by
  unfold mutualStep
  by_cases hp : p.1 = p.2
  · rw [if_pos hp]
  · rw [if_neg hp]
    cases hx : dlookup m (p.1, p.2) with
    | none => rfl
    | some x =>
      cases hy : dlookup m (p.2, p.1) with
      | none => rfl
      | some y =>
        simp only []
        have hne : ((p.2, p.1) : Edge) ≠ (p.1, p.2) := by
          intro hc
          exact hp (congrArg Prod.snd hc)
        have hne' : ((p.1, p.2) : Edge) ≠ (p.2, p.1) := by
          intro hc
          exact hp (congrArg Prod.fst hc)
        have hnd1 : NodupKeys (derase m (p.1, p.2)) := nodupKeys_derase _ hnd
        have hnd2 : NodupKeys (derase (derase m (p.1, p.2)) (p.2, p.1)) :=
          nodupKeys_derase _ hnd1
        have hl2 : dlookup (derase m (p.1, p.2)) (p.2, p.1) = some y := by
          rw [dlookup_derase_ne _ _ _ hne]; exact hy
        have hmm1 : net (derase (derase m (p.1, p.2)) (p.2, p.1)) u
            = net m u - contrib u ((p.1, p.2), x) - contrib u ((p.2, p.1), y) := by
          rw [net_derase _ _ _ hnd1, net_derase _ _ _ hnd, hx, hl2]
          rfl
        have hkey : contrib u ((p.1, p.2), x) + contrib u ((p.2, p.1), x) = 0 := by
          simp only [contrib]
          split_ifs <;> ring
        have hlin : ∀ v w : Int,
            contrib u ((p.1, p.2), v - w)
              = contrib u ((p.1, p.2), v) - contrib u ((p.1, p.2), w) := by
          intro v w
          simp only [contrib]
          split_ifs <;> ring
        have hlin2 : ∀ v w : Int,
            contrib u ((p.2, p.1), v - w)
              = contrib u ((p.2, p.1), v) - contrib u ((p.2, p.1), w) := by
          intro v w
          simp only [contrib]
          split_ifs <;> ring
        have hswap : ∀ v : Int,
            contrib u ((p.2, p.1), v) = -contrib u ((p.1, p.2), v) := by
          intro v
          simp only [contrib]
          split_ifs <;> ring
        by_cases hd : x - y = 0
        · rw [if_pos hd, hmm1]
          have : x = y := by omega
          subst this
          have := hkey
          rw [hswap x] at *
          omega
        · rw [if_neg hd]
          by_cases hpos : 0 < x - y
          · rw [if_pos hpos, net_dinsert_full _ _ _ _ hnd2,
              dlookup_derase_ne _ _ _ hne', dlookup_derase_self, hmm1]
            simp only [Option.getD_none, contrib_zero]
            rw [hlin, hswap y]
            ring
          · rw [if_neg hpos, net_dinsert_full _ _ _ _ hnd2,
              dlookup_derase_self, hmm1]
            simp only [Option.getD_none, contrib_zero]
            rw [show -(x - y) = y - x by ring, hlin2, hswap y, hswap x]
            ring

theorem foldA_invariants (l : List Edge) (m : DebtMap) (hnd : NodupKeys m) :
    NodupKeys (l.foldl mutualStep m)
      ∧ (∀ u, net (l.foldl mutualStep m) u = net m u) := by
  induction l generalizing m with
  | nil => exact ⟨hnd, fun _ => rfl⟩
  | cons e l ih =>
    rw [List.foldl_cons]
    have hstep := mutualStep_nodupKeys m e hnd
    rcases ih (mutualStep m e) hstep with ⟨h1, h2⟩
    exact ⟨h1, fun u => by rw [h2 u, mutualStep_net m e hnd u]⟩

theorem foldA_noSelf (l : List Edge) (m : DebtMap) (hns : NoSelfKeys m) :
    NoSelfKeys (l.foldl mutualStep m) := by
  induction l generalizing m with
  | nil => exact hns
  | cons e l ih =>
    rw [List.foldl_cons]
    exact ih (mutualStep m e) (mutualStep_noSelfKeys m e hns)

theorem simplify_mutual_owing_net (m : DebtMap) (hnd : NodupKeys m)
    (u : UserId) : net (simplify_mutual_owing m) u = net m u :=
  (foldA_invariants (allPairs (usersOf m)) m hnd).2 u

theorem simplify_mutual_owing_nodupKeys (m : DebtMap) (hnd : NodupKeys m) :
    NodupKeys (simplify_mutual_owing m) :=
  (foldA_invariants (allPairs (usersOf m)) m hnd).1

theorem simplify_mutual_owing_noSelfKeys (m : DebtMap) (hns : NoSelfKeys m) :
    NoSelfKeys (simplify_mutual_owing m) :=
  foldA_noSelf (allPairs (usersOf m)) m hns

theorem mem_ladd {l : List UserId} {c x : UserId} (h : x ∈ ladd l c) :
    x = c ∨ x ∈ l := by
  unfold ladd at h
  by_cases hc : c ∈ l
  · rw [if_pos hc] at h
    exact Or.inr h
  · rw [if_neg hc] at h
    exact List.mem_cons.mp h

theorem mem_lremove {l : List UserId} {c x : UserId} (h : x ∈ lremove l c) :
    x ∈ l :=
  List.mem_of_mem_filter h

theorem lendersNoSelf_lupdate_lremove {f : Lenders} (x w : UserId)
    (h : LendersNoSelf f) : LendersNoSelf (lupdate f x (fun l => lremove l w)) := by
  intro z
  unfold lupdate
  by_cases hz : z = x
  · subst hz
    rw [if_pos rfl]
    intro hc
    exact h z (mem_lremove hc)
  · rw [if_neg hz]
    exact h z

theorem lendersNoSelf_lupdate_ladd {f : Lenders} (x w : UserId)
    (h : LendersNoSelf f) (hxw : x ≠ w) :
    LendersNoSelf (lupdate f x (fun l => ladd l w)) := by
  intro z
  unfold lupdate
  by_cases hz : z = x
  · subst hz
    rw [if_pos rfl]
    intro hc
    rcases mem_ladd hc with hc | hc
    · exact hxw hc
    · exact h z hc
  · rw [if_neg hz]
    exact h z

theorem initLenders_noSelf (m : DebtMap) (hns : NoSelfKeys m) :
    LendersNoSelf (initLenders m) := by
  unfold initLenders
  have aux : ∀ (l : List (Edge × Int)) (f : Lenders),
      (∀ e ∈ l, e.1.1 ≠ e.1.2) → LendersNoSelf f →
      LendersNoSelf
        (l.foldl (fun f e => lupdate f e.1.1 (fun s => ladd s e.1.2)) f) := by
    intro l
    induction l with
    | nil => intro f _ hf; exact hf
    | cons e l ih =>
      intro f hl hf
      rw [List.foldl_cons]
      exact ih _ (fun x hx => hl x (List.mem_cons_of_mem e hx))
        (lendersNoSelf_lupdate_ladd _ _ hf (hl e (List.mem_cons_self e l)))
  exact aux m _ hns (fun _ hx => by simp at hx)

theorem dlookup_self_of_noSelf {m : DebtMap} (b : UserId) (hns : NoSelfKeys m) :
    dlookup m (b, b) = none := by
  apply dlookup_eq_none_of_not_mem_keys
  intro e he hc
  exact hns e he (by rw [hc])

theorem contrib_linear (u : UserId) (k : Edge) (v w : Int) :
    contrib u (k, v + w) = contrib u (k, v) + contrib u (k, w) := by
  simp only [contrib]
  split_ifs <;> ring

theorem contrib_sub (u : UserId) (k : Edge) (v w : Int) :
    contrib u (k, v - w) = contrib u (k, v) - contrib u (k, w) := by
  simp only [contrib]
  split_ifs <;> ring

theorem contrib_triangle (u a b c : UserId) (v : Int) :
    contrib u ((a, c), v) = contrib u ((a, b), v) + contrib u ((b, c), v) := by
  simp only [contrib]
  split_ifs <;> ring

theorem transApply_nodupKeys (s : TransState) (a b c : UserId) (x : Int)
    (hnd : NodupKeys s.debts) : NodupKeys (transApply s a b c x).debts := by
  have h1 : NodupKeys (derase (derase s.debts (a, b)) (b, c)) :=
    nodupKeys_derase _ (nodupKeys_derase _ hnd)
  simp only [transApply]
  split_ifs
  · exact nodupKeys_dinsert _ _ h1
  · exact nodupKeys_dinsert _ _ (nodupKeys_dinsert _ _ h1)
  · exact nodupKeys_dinsert _ _ (nodupKeys_dinsert _ _ h1)

theorem transApply_noSelf (s : TransState) (a b c : UserId) (x : Int)
    (hab : a ≠ b) (hac : a ≠ c) (hbc : b ≠ c)
    (hns : NoSelfKeys s.debts) (hl : LendersNoSelf s.lenders) :
    NoSelfKeys (transApply s a b c x).debts
      ∧ LendersNoSelf (transApply s a b c x).lenders := by
  have hd1 : NoSelfKeys (derase (derase s.debts (a, b)) (b, c)) :=
    noSelfKeys_derase _ (noSelfKeys_derase _ hns)
  have hl1 : LendersNoSelf
      (lupdate (lupdate s.lenders a (fun l => lremove l b)) b
        (fun l => lremove l c)) :=
    lendersNoSelf_lupdate_lremove _ _ (lendersNoSelf_lupdate_lremove _ _ hl)
  simp only [transApply]
  split_ifs
  · exact ⟨noSelfKeys_dinsert _ hd1 hac, lendersNoSelf_lupdate_ladd _ _ hl1 hac⟩
  · exact ⟨noSelfKeys_dinsert _ (noSelfKeys_dinsert _ hd1 hac) hab,
      lendersNoSelf_lupdate_ladd _ _ (lendersNoSelf_lupdate_ladd _ _ hl1 hac) hab⟩
  · exact ⟨noSelfKeys_dinsert _ (noSelfKeys_dinsert _ hd1 hac) hbc,
      lendersNoSelf_lupdate_ladd _ _ (lendersNoSelf_lupdate_ladd _ _ hl1 hac) hbc⟩

theorem transApply_net (s : TransState) (a b c : UserId) (x : Int)
    (hab : a ≠ b) (hx : dlookup s.debts (a, b) = some x)
    (hnd : NodupKeys s.debts) (hns : NoSelfKeys s.debts) (u : UserId) :
    net (transApply s a b c x).debts u = net s.debts u := by
  have hne_bc_ab : ((b, c) : Edge) ≠ (a, b) := by
    intro hc
    exact hab (congrArg Prod.fst hc).symm
  have hne_ab_bc : ((a, b) : Edge) ≠ (b, c) := by
    intro hc
    exact hab (congrArg Prod.fst hc)
  have hne_bc_ac : ((b, c) : Edge) ≠ (a, c) := by
    intro hc
    exact hab (congrArg Prod.fst hc).symm
  have hnd1 : NodupKeys (derase s.debts (a, b)) := nodupKeys_derase _ hnd
  have hnd2 : NodupKeys (derase (derase s.debts (a, b)) (b, c)) :=
    nodupKeys_derase _ hnd1
  have hlook_d1_ab : dlookup (derase (derase s.debts (a, b)) (b, c)) (a, b)
      = none := by
    rw [dlookup_derase_ne _ _ _ hne_ab_bc, dlookup_derase_self]
  have hlook_d1_bc : dlookup (derase (derase s.debts (a, b)) (b, c)) (b, c)
      = none := dlookup_derase_self _ _
  have hnet1 : net (derase (derase s.debts (a, b)) (b, c)) u
      = net s.debts u - contrib u ((a, b), x)
        - contrib u ((b, c), (dlookup s.debts (b, c)).getD 0) := by
    rw [net_derase _ _ _ hnd1, dlookup_derase_ne _ _ _ hne_bc_ab,
      net_derase _ _ _ hnd, hx]
    rfl
  have hy0 : b = c → (dlookup s.debts (b, c)).getD 0 = 0 := by
    intro hbc
    rw [← hbc, dlookup_self_of_noSelf b hns]
    rfl
  simp only [transApply]
  split_ifs with h1 h2
  · -- x >= y and x == y: only the accumulation on (a, c) happens
    show net (dinsert (derase (derase s.debts (a, b)) (b, c)) (a, c) _) u = _
    rw [net_dinsert_full _ _ _ _ hnd2, contrib_linear, hnet1]
    have htri := contrib_triangle u a b c ((dlookup s.debts (b, c)).getD 0)
    have hxx : contrib u ((a, b), x)
        = contrib u ((a, b), (dlookup s.debts (b, c)).getD 0) := by
      rw [h2]
    omega
  · -- x >= y and x != y: accumulate on (a, c) and restore the remainder on (a, b)
    show net (dinsert (dinsert (derase (derase s.debts (a, b)) (b, c)) (a, c) _)
      (a, b) _) u = _
    have hd2nd : NodupKeys (dinsert (derase (derase s.debts (a, b)) (b, c))
        (a, c) (((dlookup (derase (derase s.debts (a, b)) (b, c)) (a, c)).getD 0)
          + (dlookup s.debts (b, c)).getD 0)) :=
      nodupKeys_dinsert _ _ hnd2
    have hlook2 : (dlookup (dinsert (derase (derase s.debts (a, b)) (b, c))
        (a, c) (((dlookup (derase (derase s.debts (a, b)) (b, c)) (a, c)).getD 0)
          + (dlookup s.debts (b, c)).getD 0)) (a, b)).getD 0 = 0 := by
      by_cases hbc : b = c
      · subst hbc
        rw [dlookup_dinsert_self, hlook_d1_ab, hy0 rfl]
        rfl
      · have hne : ((a, b) : Edge) ≠ (a, c) := by
          intro hc
          exact hbc (congrArg Prod.snd hc)
        rw [dlookup_dinsert_ne _ _ _ _ hne, hlook_d1_ab]
        rfl
    rw [net_dinsert_full _ _ _ _ hd2nd, hlook2, contrib_zero,
      net_dinsert_full _ _ _ _ hnd2, contrib_linear, hnet1, contrib_sub]
    have htri := contrib_triangle u a b c ((dlookup s.debts (b, c)).getD 0)
    omega
  · -- x < y: accumulate x on (a, c), set the remainder on (b, c)
    show net (dinsert (dinsert (derase (derase s.debts (a, b)) (b, c)) (a, c) _)
      (b, c) _) u = _
    have hd2nd : NodupKeys (dinsert (derase (derase s.debts (a, b)) (b, c))
        (a, c) (((dlookup (derase (derase s.debts (a, b)) (b, c)) (a, c)).getD 0)
          + x)) :=
      nodupKeys_dinsert _ _ hnd2
    have hlook2 : (dlookup (dinsert (derase (derase s.debts (a, b)) (b, c))
        (a, c) (((dlookup (derase (derase s.debts (a, b)) (b, c)) (a, c)).getD 0)
          + x)) (b, c)).getD 0 = 0 := by
      rw [dlookup_dinsert_ne _ _ _ _ hne_bc_ac, hlook_d1_bc]
      rfl
    rw [net_dinsert_full _ _ _ _ hd2nd, hlook2, contrib_zero,
      net_dinsert_full _ _ _ _ hnd2, contrib_linear, hnet1, contrib_sub]
    have htri := contrib_triangle u a b c x
    omega

theorem transStep_invariants (s : TransState) (p : Edge)
    (hnd : NodupKeys s.debts) (hns : NoSelfKeys s.debts)
    (hl : LendersNoSelf s.lenders) :
    NodupKeys (transStep s p).debts ∧ NoSelfKeys (transStep s p).debts
      ∧ LendersNoSelf (transStep s p).lenders
      ∧ ∀ u, net (transStep s p).debts u = net s.debts u := by
  unfold transStep
  by_cases hp : p.1 = p.2
  · rw [if_pos hp]
    exact ⟨hnd, hns, hl, fun _ => rfl⟩
  · rw [if_neg hp]
    cases hx : dlookup s.debts (p.1, p.2) with
    | none => exact ⟨hnd, hns, hl, fun _ => rfl⟩
    | some x =>
      cases hL : s.lenders p.2 with
      | nil => exact ⟨hnd, hns, hl, fun _ => rfl⟩
      | cons c rest =>
        cases rest with
        | cons d t => exact ⟨hnd, hns, hl, fun _ => rfl⟩
        | nil =>
          simp only []
          by_cases hx0 : x = 0
          · rw [if_pos hx0]
            exact ⟨hnd, hns, hl, fun _ => rfl⟩
          · rw [if_neg hx0]
            by_cases hac : p.1 = c
            · rw [if_pos hac]
              exact ⟨hnd, hns, hl, fun _ => rfl⟩
            · rw [if_neg hac]
              have hbc : p.2 ≠ c := by
                intro hcc
                have hmem := hl p.2
                rw [hL, hcc] at hmem
                exact hmem (List.mem_singleton.mpr rfl)
              have hno := transApply_noSelf s p.1 p.2 c x hp hac hbc hns hl
              exact ⟨transApply_nodupKeys s p.1 p.2 c x hnd, hno.1, hno.2,
                fun u => transApply_net s p.1 p.2 c x hp hx hnd hns u⟩

theorem foldB_invariants (l : List Edge) (s : TransState)
    (hnd : NodupKeys s.debts) (hns : NoSelfKeys s.debts)
    (hl : LendersNoSelf s.lenders) :
    NodupKeys (l.foldl transStep s).debts
      ∧ NoSelfKeys (l.foldl transStep s).debts
      ∧ LendersNoSelf (l.foldl transStep s).lenders
      ∧ ∀ u, net (l.foldl transStep s).debts u = net s.debts u := by
  induction l generalizing s with
  | nil => exact ⟨hnd, hns, hl, fun _ => rfl⟩
  | cons e l ih =>
    rw [List.foldl_cons]
    rcases transStep_invariants s e hnd hns hl with ⟨h1, h2, h3, h4⟩
    rcases ih (transStep s e) h1 h2 h3 with ⟨g1, g2, g3, g4⟩
    exact ⟨g1, g2, g3, fun u => by rw [g4 u, h4 u]⟩

theorem simplify_transient_debts_net (m : DebtMap) (hnd : NodupKeys m)
    (hns : NoSelfKeys m) (u : UserId) :
    net (simplify_transient_debts m) u = net m u :=
  (foldB_invariants (allPairs (usersOf m)) ⟨m, initLenders m⟩ hnd hns
    (initLenders_noSelf m hns)).2.2.2 u

theorem simplify_transient_debts_noSelfKeys (m : DebtMap) (hnd : NodupKeys m)
    (hns : NoSelfKeys m) : NoSelfKeys (simplify_transient_debts m) :=
  (foldB_invariants (allPairs (usersOf m)) ⟨m, initLenders m⟩ hnd hns
    (initLenders_noSelf m hns)).2.1

theorem simplify_transient_debts_nodupKeys (m : DebtMap) (hnd : NodupKeys m)
    (hns : NoSelfKeys m) : NodupKeys (simplify_transient_debts m) :=
  (foldB_invariants (allPairs (usersOf m)) ⟨m, initLenders m⟩ hnd hns
    (initLenders_noSelf m hns)).1

/-- C1: on every well-formed debt graph (a dict, hence no duplicate keys, with
no self-edges), Pass A (`simplify_mutual_owing`) and Pass B
(`_simplify_transient_debts`) each preserve every participant's net position —
total owed to them minus total they owe, summed over all edges — and neither
pass ever produces an edge whose debtor equals its creditor. -/
theorem simplify_passes_preserve_net_and_no_self_edge (m : DebtMap)
    (hnd : NodupKeys m) (hns : NoSelfKeys m) :
    (∀ u, net (simplify_mutual_owing m) u = net m u)
      ∧ (∀ u, net (simplify_transient_debts m) u = net m u)
      ∧ NoSelfKeys (simplify_mutual_owing m)
      ∧ NoSelfKeys (simplify_transient_debts m) :=
  ⟨simplify_mutual_owing_net m hnd, simplify_transient_debts_net m hnd hns,
   simplify_mutual_owing_noSelfKeys m hns,
   simplify_transient_debts_noSelfKeys m hnd hns⟩

/-- Witness for C1 at a concrete graph. -/
theorem simplify_passes_preserve_net_and_no_self_edge_witness :
    NodupKeys exGraph1 ∧ NoSelfKeys exGraph1
      ∧ ((∀ u, net (simplify_mutual_owing exGraph1) u = net exGraph1 u)
        ∧ (∀ u, net (simplify_transient_debts exGraph1) u = net exGraph1 u)
        ∧ NoSelfKeys (simplify_mutual_owing exGraph1)
        ∧ NoSelfKeys (simplify_transient_debts exGraph1)) :=
  ⟨by decide, by decide,
   simplify_passes_preserve_net_and_no_self_edge exGraph1 (by decide) (by decide)⟩

/-- C2: for every graph and unordered pair with both directed edges present,
`simplify_mutual_owing` removes both edges and leaves the single signed
difference (no edge on equality); a pair with at most one direction present is
left unchanged. -/
theorem simplify_mutual_owing_pairwise (m : DebtMap) (a b : UserId)
    (hab : a ≠ b) :
    (∀ x y, dlookup m (a, b) = some x → dlookup m (b, a) = some y →
        (x = y → dlookup (simplify_mutual_owing m) (a, b) = none
            ∧ dlookup (simplify_mutual_owing m) (b, a) = none)
          ∧ (y < x → dlookup (simplify_mutual_owing m) (a, b) = some (x - y)
              ∧ dlookup (simplify_mutual_owing m) (b, a) = none)
          ∧ (x < y → dlookup (simplify_mutual_owing m) (b, a) = some (y - x)
              ∧ dlookup (simplify_mutual_owing m) (a, b) = none))
      ∧ (dlookup m (b, a) = none →
          dlookup (simplify_mutual_owing m) (a, b) = dlookup m (a, b))
      ∧ (dlookup m (a, b) = none →
          dlookup (simplify_mutual_owing m) (b, a) = dlookup m (b, a)) := by
  have hchar1 := simplify_mutual_owing_lookup m a b hab
  have hchar2 := simplify_mutual_owing_lookup m b a (fun hc => hab hc.symm)
  refine ⟨?_, ?_, ?_⟩
  · intro x y hx hy
    rw [hx, hy] at hchar1 hchar2
    refine ⟨?_, ?_, ?_⟩
    · intro hxy
      subst hxy
      refine ⟨?_, ?_⟩
      · rw [hchar1]
        simp [matchNet]
      · rw [hchar2]
        simp [matchNet]
    · intro hlt
      refine ⟨?_, ?_⟩
      · rw [hchar1]
        simp [matchNet, hlt]
      · rw [hchar2]
        have : ¬ x < y := by omega
        simp [matchNet, this]
    · intro hlt
      refine ⟨?_, ?_⟩
      · rw [hchar2]
        simp [matchNet, hlt]
      · rw [hchar1]
        have : ¬ y < x := by omega
        simp [matchNet, this]
  · intro hy
    rw [hchar1, hy]
    cases dlookup m (a, b) <;> rfl
  · intro hx
    rw [hchar2, hx]
    cases dlookup m (b, a) <;> rfl

/-- Witness for C2 at a concrete graph and pair. -/
theorem simplify_mutual_owing_pairwise_witness :
    (1 : UserId) ≠ 2
      ∧ ((∀ x y, dlookup exGraph1 (1, 2) = some x →
            dlookup exGraph1 (2, 1) = some y →
          (x = y → dlookup (simplify_mutual_owing exGraph1) (1, 2) = none
              ∧ dlookup (simplify_mutual_owing exGraph1) (2, 1) = none)
            ∧ (y < x →
                dlookup (simplify_mutual_owing exGraph1) (1, 2) = some (x - y)
                ∧ dlookup (simplify_mutual_owing exGraph1) (2, 1) = none)
            ∧ (x < y →
                dlookup (simplify_mutual_owing exGraph1) (2, 1) = some (y - x)
                ∧ dlookup (simplify_mutual_owing exGraph1) (1, 2) = none))
        ∧ (dlookup exGraph1 (2, 1) = none →
            dlookup (simplify_mutual_owing exGraph1) (1, 2)
              = dlookup exGraph1 (1, 2))
        ∧ (dlookup exGraph1 (1, 2) = none →
            dlookup (simplify_mutual_owing exGraph1) (2, 1)
              = dlookup exGraph1 (2, 1))) :=
  ⟨by decide, simplify_mutual_owing_pairwise exGraph1 1 2 (by decide)⟩

theorem matchNet_idem (o1 o2 : Option Int) :
    matchNet (matchNet o1 o2) (matchNet o2 o1) = matchNet o1 o2 := by
  cases o1 with
  | none => cases o2 <;> rfl
  | some x =>
    cases o2 with
    | none => rfl
    | some y =>
      by_cases h1 : y < x
      · have h2 : ¬ x < y := by omega
        rw [show matchNet (some x) (some y) = some (x - y) by
            simp [matchNet, h1],
          show matchNet (some y) (some x) = none by simp [matchNet, h2]]
        rfl
      · by_cases h2 : x < y
        · rw [show matchNet (some x) (some y) = none by simp [matchNet, h1],
            show matchNet (some y) (some x) = some (y - x) by
              simp [matchNet, h2]]
          rfl
        · rw [show matchNet (some x) (some y) = none by simp [matchNet, h1],
            show matchNet (some y) (some x) = none by simp [matchNet, h2]]
          rfl

/-- C7: `simplify_mutual_owing` is idempotent — applying it twice yields a
graph equal (as a key-to-value mapping, which is Python dict equality) to the
result of applying it once, for every debt graph. -/
theorem simplify_mutual_owing_idempotent (m : DebtMap) :
    ∀ k, dlookup (simplify_mutual_owing (simplify_mutual_owing m)) k
      = dlookup (simplify_mutual_owing m) k := by
  intro k
  obtain ⟨p, q⟩ := k
  by_cases hpq : p = q
  · subst hpq
    rw [simplify_mutual_owing_lookup_self]
  · have h1 := simplify_mutual_owing_lookup (simplify_mutual_owing m) p q hpq
    have h2 := simplify_mutual_owing_lookup m p q hpq
    have h3 := simplify_mutual_owing_lookup m q p (fun hc => hpq hc.symm)
    rw [h1, h2, h3, matchNet_idem]

theorem simplifyLoop_spec (n : Nat) (m : DebtMap) :
    ∃ k, k ≤ n
      ∧ (∀ j, j < k → deq (onePass (onePass^[j] m)) (onePass^[j] m) = false)
      ∧ ((k < n ∧ deq (onePass (onePass^[k] m)) (onePass^[k] m) = true
            ∧ simplifyLoop n m = (onePass^[k] m, true))
        ∨ (k = n ∧ simplifyLoop n m = (onePass^[n] m, false))) := by
  induction n generalizing m with
  | zero =>
    exact ⟨0, Nat.le_refl 0, fun j hj => absurd hj (Nat.not_lt_zero j),
      Or.inr ⟨rfl, rfl⟩⟩
  | succ n ih =>
    by_cases h : deq (onePass m) m = true
    · refine ⟨0, Nat.zero_le _, fun j hj => absurd hj (Nat.not_lt_zero j),
        Or.inl ⟨Nat.succ_pos n, by simpa using h, ?_⟩⟩
      simp only [simplifyLoop]
      rw [if_pos h]
      simp
    · have hfalse : deq (onePass m) m = false := by
        cases hc : deq (onePass m) m
        · rfl
        · exact absurd hc h
      rcases ih (onePass m) with ⟨k, hk, hall, hdisj⟩
      refine ⟨k + 1, Nat.succ_le_succ hk, ?_, ?_⟩
      · intro j hj
        cases j with
        | zero => simpa using hfalse
        | succ j =>
          rw [Function.iterate_succ_apply]
          exact hall j (Nat.lt_of_succ_lt_succ hj)
      · rcases hdisj with ⟨hlt, hdq, heq⟩ | ⟨hek, heq⟩
        · refine Or.inl ⟨Nat.succ_lt_succ hlt, ?_, ?_⟩
          · rw [Function.iterate_succ_apply]
            exact hdq
          · simp only [simplifyLoop]
            rw [if_neg (by rw [hfalse]; exact Bool.false_ne_true), heq,
              Function.iterate_succ_apply]
        · refine Or.inr ⟨by omega, ?_⟩
          simp only [simplifyLoop]
          rw [if_neg (by rw [hfalse]; exact Bool.false_ne_true), heq,
            Function.iterate_succ_apply]

/-- C3: `simplify_debts` applies Pass A then Pass B repeatedly; it stops as
soon as an iteration reproduces the previous graph (dict equality) or after
10 iterations, whichever comes first; the result is always the last computed
graph (the function is total — non-convergence is not an error), and the
non-convergence diagnostic is emitted exactly when no iteration among the 10
reached a fixed point. -/
theorem simplify_debts_fixed_point_behavior (m : DebtMap) :
    ∃ k, k ≤ 10 ∧ simplify_debts m = onePass^[k] m
      ∧ (∀ j, j < k → deq (onePass (onePass^[j] m)) (onePass^[j] m) = false)
      ∧ (k < 10 → deq (onePass (onePass^[k] m)) (onePass^[k] m) = true)
      ∧ (simplify_debts_converged m = false ↔ k = 10) := by
  rcases simplifyLoop_spec 10 m with ⟨k, hk, hall, hdisj⟩
  rcases hdisj with ⟨hlt, hdq, heq⟩ | ⟨hek, heq⟩
  · refine ⟨k, hk, ?_, hall, fun _ => hdq, ?_⟩
    · rw [simplify_debts, heq]
    · rw [simplify_debts_converged, heq]
      simp
      omega
  · refine ⟨k, hk, ?_, hall, fun hc => absurd hek (by omega), ?_⟩
    · rw [simplify_debts, heq, hek]
    · rw [simplify_debts_converged, heq]
      simp [hek]

theorem dlookup_mem {m : DebtMap} {k : Edge} {v : Int}
    (h : dlookup m k = some v) : (k, v) ∈ m := by
  unfold dlookup at h
  rcases Option.map_eq_some'.mp h with ⟨e, hfind, hv⟩
  have hmem := List.mem_of_find?_eq_some hfind
  have hkey : e.1 = k := by simpa using List.find?_some hfind
  obtain ⟨k0, v0⟩ := e
  simp only [] at hkey hv
  rw [← hkey, ← hv]
  exact hmem

theorem sum_filter_ne_zero (l : List (UserId × Int)) :
    ((l.filter (fun d => !(d.2 == 0))).map (fun d => d.2)).sum
      = (l.map (fun d => d.2)).sum := by
  induction l with
  | nil => rfl
  | cons d l ih =>
    by_cases h : d.2 = 0
    · simp [List.filter_cons, h, ih]
    · simp [List.filter_cons, h, ih]

theorem truncRat_intCast (n : Int) : truncRat (n : Rat) = n := by
  unfold truncRat
  rw [Rat.num_intCast, Rat.den_intCast]
  simp [Int.tdiv_one]

theorem apply_exchange_rate_one (ds : List (UserId × Int)) :
    apply_exchange_rate ds 1 = ds := by
  unfold apply_exchange_rate
  induction ds with
  | nil => rfl
  | cons d t ih =>
    rw [List.map_cons]
    unfold apply_exchange_rate at ih
    rw [ih, mul_one, truncRat_intCast]

theorem calculate_expense_debts_rate_one (e : Expense)
    (hr : e.exchange_rate = 1) :
    calculate_expense_debts e = (calculate_expense_debts_inner e).map
      (fun ds => ds.filter (fun d => !(d.2 == 0))) := by
  unfold calculate_expense_debts
  rw [hr]
  cases calculate_expense_debts_inner e with
  | none => rfl
  | some ds => simp [apply_exchange_rate_one]

theorem add_debt_wf (payer : UserId) (g : DebtMap) (d : UserId × Int)
    (hnd : NodupKeys g) (hns : NoSelfKeys g) :
    NodupKeys (add_debt payer g d) ∧ NoSelfKeys (add_debt payer g d) := by
  unfold add_debt
  by_cases h : d.1 = payer
  · rw [if_pos h]
    exact ⟨hnd, hns⟩
  · rw [if_neg h]
    exact ⟨nodupKeys_dinsert _ _ hnd, noSelfKeys_dinsert _ hns h⟩

theorem add_debt_pos (payer : UserId) (g : DebtMap) (d : UserId × Int)
    (hg : ∀ x ∈ g, 0 < x.2) (hd : 0 < d.2) :
    ∀ x ∈ add_debt payer g d, 0 < x.2 := by
  unfold add_debt
  by_cases h : d.1 = payer
  · rw [if_pos h]
    exact hg
  · rw [if_neg h]
    intro x hx
    rcases mem_dinsert hx with rfl | hx'
    · show 0 < (dlookup g (d.1, payer)).getD 0 + d.2
      cases hl : dlookup g (d.1, payer) with
      | none => simpa using hd
      | some v =>
        have hv := hg _ (dlookup_mem hl)
        simp only [Option.getD_some]
        simp only [] at hv
        omega
    · exact hg x hx'

theorem debts_fold_wf (ds : List (UserId × Int)) (payer : UserId) (g : DebtMap)
    (hnd : NodupKeys g) (hns : NoSelfKeys g) :
    NodupKeys (ds.foldl (add_debt payer) g)
      ∧ NoSelfKeys (ds.foldl (add_debt payer) g) := by
  induction ds generalizing g with
  | nil => exact ⟨hnd, hns⟩
  | cons d t ih =>
    rw [List.foldl_cons]
    rcases add_debt_wf payer g d hnd hns with ⟨h1, h2⟩
    exact ih (add_debt payer g d) h1 h2

theorem debts_fold_pos (ds : List (UserId × Int)) (payer : UserId)
    (g : DebtMap) (hg : ∀ x ∈ g, 0 < x.2) (hd : ∀ d ∈ ds, 0 < d.2) :
    ∀ x ∈ ds.foldl (add_debt payer) g, 0 < x.2 := by
  induction ds generalizing g with
  | nil => exact hg
  | cons d t ih =>
    rw [List.foldl_cons]
    exact ih (add_debt payer g d)
      (add_debt_pos payer g d hg (hd d (List.mem_cons_self d t)))
      (fun z hz => hd z (List.mem_cons_of_mem d hz))

theorem agg_fold_none (es : List Expense) :
    es.foldl agg_step none = none := by
  induction es with
  | nil => rfl
  | cons e es ih => exact ih

theorem calculate_debts_aux_wf (es : List Expense) :
    ∀ g0 g : DebtMap, NodupKeys g0 → NoSelfKeys g0 →
      es.foldl agg_step (some g0) = some g → NodupKeys g ∧ NoSelfKeys g := by
  induction es with
  | nil =>
    intro g0 g hnd hns h
    rw [List.foldl_nil] at h
    rw [← Option.some.inj h]
    exact ⟨hnd, hns⟩
  | cons e es ih =>
    intro g0 g hnd hns h
    rw [List.foldl_cons] at h
    cases hce : calculate_expense_debts e with
    | none =>
      rw [show agg_step (some g0) e = none by simp [agg_step, hce]] at h
      rw [agg_fold_none] at h
      exact absurd h (by simp)
    | some ds =>
      rw [show agg_step (some g0) e = some (ds.foldl (add_debt e.payer) g0) by
        simp [agg_step, hce]] at h
      rcases debts_fold_wf ds e.payer g0 hnd hns with ⟨h1, h2⟩
      exact ih _ g h1 h2 h

theorem calc_expense_debts_mem_ne_zero {e : Expense}
    {ds : List (UserId × Int)} {d : UserId × Int}
    (h : calculate_expense_debts e = some ds) (hd : d ∈ ds) : d.2 ≠ 0 := by
  unfold calculate_expense_debts at h
  rcases Option.map_eq_some'.mp h with ⟨ds0, _, hds⟩
  rw [← hds] at hd
  have := List.of_mem_filter hd
  simpa using this

theorem calculate_debts_aux_pos (es : List Expense) :
    ∀ g0 g : DebtMap, (∀ x ∈ g0, 0 < x.2) →
      (∀ e ∈ es, ∀ ds, calculate_expense_debts e = some ds →
        ∀ d ∈ ds, 0 ≤ d.2) →
      es.foldl agg_step (some g0) = some g → ∀ x ∈ g, 0 < x.2 := by
  induction es with
  | nil =>
    intro g0 g hg _ h
    rw [List.foldl_nil] at h
    rw [← Option.some.inj h]
    exact hg
  | cons e es ih =>
    intro g0 g hg hpos h
    rw [List.foldl_cons] at h
    cases hce : calculate_expense_debts e with
    | none =>
      rw [show agg_step (some g0) e = none by simp [agg_step, hce]] at h
      rw [agg_fold_none] at h
      exact absurd h (by simp)
    | some ds =>
      rw [show agg_step (some g0) e = some (ds.foldl (add_debt e.payer) g0) by
        simp [agg_step, hce]] at h
      have hds : ∀ d ∈ ds, 0 < d.2 := by
        intro d hd
        have h1 := hpos e (List.mem_cons_self e es) ds hce d hd
        have h2 := calc_expense_debts_mem_ne_zero hce hd
        omega
      exact ih _ g (debts_fold_pos ds e.payer g0 hg hds)
        (fun x hx => hpos x (List.mem_cons_of_mem e hx)) h

/-- C4 counterexample: amounts in the aggregated graph are not always
strictly positive.  `exC4` passes `validate_expense_split`, yet
`calculate_debts` stores `-500` on the edge `(1, 2)`. -/
theorem calculate_debts_stores_negative_amount :
    validate_expense_split exC4.type exC4.amount exC4.splits = true
      ∧ calculate_debts [exC4] = some [((1, 2), -500)]
      ∧ dlookup [((1, 2), -500)] (1, 2) = some (-500)
      ∧ (-500 : Int) < 0 := by
  have h1 : calculate_expense_debts exC4 = some [(1, -500), (2, 500)] := by
    rw [calculate_expense_debts_rate_one exC4 rfl]
    decide
  refine ⟨by decide, ?_, by decide, by decide⟩
  have h2 : calculate_debts [exC4]
      = (calculate_expense_debts exC4).map
          (fun ds => ds.foldl (add_debt exC4.payer) []) := rfl
  rw [h2, h1]
  decide

/-- C4 amended: the graph produced by `calculate_debts` never contains a
self-edge and has at most one entry per ordered pair, for every group;
amounts are strictly positive provided every per-expense debt value is
nonnegative (negative evaluated shares or adjustments can break this). -/
theorem calculate_debts_invariants (es : List Expense) (g : DebtMap)
    (hres : calculate_debts es = some g) :
    NodupKeys g ∧ NoSelfKeys g
      ∧ ((∀ e ∈ es, ∀ ds, calculate_expense_debts e = some ds →
            ∀ d ∈ ds, 0 ≤ d.2) → ∀ x ∈ g, 0 < x.2) := by
  have hwf := calculate_debts_aux_wf es [] g (by simp [NodupKeys])
    (by intro e he; simp at he) hres
  exact ⟨hwf.1, hwf.2, fun hpos =>
    calculate_debts_aux_pos es [] g (by intro x hx; simp at hx) hpos hres⟩

/-- Witness for C4 amended at a concrete group. -/
theorem calculate_debts_invariants_witness :
    calculate_debts [exC4w] = some [((3, 1), 30), ((2, 1), 30)]
      ∧ (NodupKeys [((3, 1), 30), ((2, 1), 30)]
        ∧ NoSelfKeys [((3, 1), 30), ((2, 1), 30)]
        ∧ ((∀ e ∈ [exC4w], ∀ ds, calculate_expense_debts e = some ds →
              ∀ d ∈ ds, 0 ≤ d.2) →
            ∀ x ∈ ([((3, 1), 30), ((2, 1), 30)] : DebtMap), 0 < x.2)) := by
  have h1 : calculate_expense_debts exC4w = some [(1, 30), (2, 30), (3, 30)] := by
    rw [calculate_expense_debts_rate_one exC4w rfl]
    decide
  have hres : calculate_debts [exC4w] = some [((3, 1), 30), ((2, 1), 30)] := by
    have h2 : calculate_debts [exC4w]
        = (calculate_expense_debts exC4w).map
            (fun ds => ds.foldl (add_debt exC4w.payer) []) := rfl
    rw [h2, h1]
    decide
  exact ⟨hres, calculate_debts_invariants [exC4w] _ hres⟩

/-- C5 counterexample: with an exchange rate other than 1, the values of
`calculate_expense_debts` do not sum to the expense amount — here the sum is
200 while the amount is 100. -/
theorem calculate_expense_debts_exact_sum_cex :
    exC5.type = ExpenseType.EXACT
      ∧ validate_expense_split exC5.type exC5.amount exC5.splits = true
      ∧ calculate_expense_debts exC5 = some [(1, 200)]
      ∧ (([((1 : UserId), (200 : Int))].map (fun d => d.2)).sum = 200
      ∧ exC5.amount = 100 ∧ (100 : Int) < 200) := by
  refine ⟨rfl, by decide, ?_, by decide, rfl, by decide⟩
  have hcast : ((100 : Int) : Rat) * 2 = ((200 : Int) : Rat) := by norm_num
  have hinner : calculate_expense_debts_inner exC5 = some [(1, (100 : Int))] := by
    decide
  unfold calculate_expense_debts apply_exchange_rate
  rw [hinner]
  simp only [Option.map_some', List.map_cons, List.map_nil]
  rw [show exC5.exchange_rate = 2 from rfl, hcast, truncRat_intCast]
  decide

/-- C5 amended: for every EXACT expense that passes validation and has
exchange rate 1, the values of `calculate_expense_debts` sum exactly to the
expense amount. -/
theorem calculate_expense_debts_exact_sum (e : Expense)
    (ht : e.type = ExpenseType.EXACT)
    (hv : validate_expense_split e.type e.amount e.splits = true)
    (hr : e.exchange_rate = 1) (ds : List (UserId × Int))
    (hds : calculate_expense_debts e = some ds) :
    (ds.map (fun d => d.2)).sum = e.amount := by
  rw [calculate_expense_debts_rate_one e hr] at hds
  unfold calculate_expense_debts_inner at hds
  rw [ht] at hds
  simp only [Option.map_some'] at hds
  rw [← Option.some.inj hds, sum_filter_ne_zero, List.map_map]
  unfold validate_expense_split at hv
  rw [ht] at hv
  exact eq_of_beq hv

/-- Witness for C5 amended at a concrete expense. -/
theorem calculate_expense_debts_exact_sum_witness :
    exC5w.type = ExpenseType.EXACT
      ∧ validate_expense_split exC5w.type exC5w.amount exC5w.splits = true
      ∧ exC5w.exchange_rate = 1
      ∧ calculate_expense_debts exC5w = some [(1, 60), (2, 40)]
      ∧ (([((1 : UserId), (60 : Int)), (2, 40)].map (fun d => d.2)).sum
          = exC5w.amount) := by
  have hds : calculate_expense_debts exC5w = some [(1, 60), (2, 40)] := by
    rw [calculate_expense_debts_rate_one exC5w rfl]
    decide
  exact ⟨rfl, by decide, rfl, hds,
    calculate_expense_debts_exact_sum exC5w rfl (by decide) rfl _ hds⟩

theorem sum_tdiv_bounds (S : Int) (hS : 0 < S) :
    ∀ xs : List Int, (∀ x ∈ xs, 0 ≤ x) →
      S * (xs.map (fun x => x.tdiv S)).sum ≤ xs.sum
        ∧ xs.sum ≤ S * (xs.map (fun x => x.tdiv S)).sum
            + (S - 1) * (xs.length : Int) := by
  intro xs
  induction xs with
  | nil =>
    intro _
    constructor <;> simp
  | cons x t ih =>
    intro hx
    have hxh : 0 ≤ x := hx x (List.mem_cons_self x t)
    have iht := ih (fun z hz => hx z (List.mem_cons_of_mem x hz))
    have hdiv : x.tdiv S = x / S := Int.tdiv_eq_ediv hxh (le_of_lt hS)
    have hdm := Int.ediv_add_emod x S
    have hmod1 : 0 ≤ x % S := Int.emod_nonneg x (by omega)
    have hmod2 : x % S < S := Int.emod_lt_of_pos x hS
    rw [List.map_cons, List.sum_cons, List.sum_cons, List.length_cons, hdiv]
    push_cast
    constructor
    · have h1 : S * (x / S) ≤ x := by omega
      calc S * (x / S + (t.map (fun x => x.tdiv S)).sum)
          = S * (x / S) + S * (t.map (fun x => x.tdiv S)).sum := by ring
        _ ≤ x + t.sum := add_le_add h1 iht.1
    · have h2 : x ≤ S * (x / S) + (S - 1) := by omega
      calc x + t.sum
          ≤ (S * (x / S) + (S - 1))
              + (S * (t.map (fun x => x.tdiv S)).sum
                + (S - 1) * (t.length : Int)) := add_le_add h2 iht.2
        _ = S * (x / S + (t.map (fun x => x.tdiv S)).sum)
              + (S - 1) * ((t.length : Int) + 1) := by ring

/-- C6 amended: for a validated PERCENTAGE or SHARES expense whose shares are
all nonnegative and whose adjustments sum to at most the amount (so the
proportional base is nonnegative), the truncation remainder of
`_calculate_expense_debts` is bounded:
`0 <= amount - sum(debt) < participant_count`; negative bases or negative
percentage shares can push the sum past the amount. -/
theorem percentage_shares_truncation_bound (e : Expense)
    (ht : e.type = ExpenseType.PERCENTAGE ∨ e.type = ExpenseType.SHARES)
    (hv : validate_expense_split e.type e.amount e.splits = true)
    (hsh : ∀ s ∈ e.splits, 0 ≤ s.shares)
    (hbase : (e.splits.map (fun s => s.adjustment)).sum ≤ e.amount)
    (ds : List (UserId × Int)) (hds : calculate_expense_debts_inner e = some ds) :
    0 ≤ e.amount - (ds.map (fun d => d.2)).sum
      ∧ e.amount - (ds.map (fun d => d.2)).sum < (e.splits.length : Int) := by
  have hds' : ds = e.splits.map (fun s =>
      (s.user,
        ((e.amount - (e.splits.map (fun s => s.adjustment)).sum)
            * s.shares).tdiv ((e.splits.map (fun s => s.shares)).sum)
          + s.adjustment)) := by
    unfold calculate_expense_debts_inner at hds
    rcases ht with ht | ht <;> rw [ht] at hds <;>
      exact (Option.some.inj hds).symm
  have hsum : (ds.map (fun d => d.2)).sum
      = ((e.splits.map (fun s =>
            (e.amount - (e.splits.map (fun s => s.adjustment)).sum)
              * s.shares)).map
          (fun x => x.tdiv ((e.splits.map (fun s => s.shares)).sum))).sum
        + (e.splits.map (fun s => s.adjustment)).sum := by
    rw [hds', List.map_map, List.map_map]
    exact List.sum_map_add
  have hS : 0 < (e.splits.map (fun s => s.shares)).sum := by
    rcases ht with ht | ht
    · unfold validate_expense_split at hv
      rw [ht] at hv
      have := eq_of_beq hv
      omega
    · unfold validate_expense_split at hv
      rw [ht] at hv
      rcases (Bool.and_eq_true _ _).mp hv with ⟨h1, _h2⟩
      have hex : ∃ s ∈ e.splits, s.shares ≠ 0 := by
        by_contra hc
        push_neg at hc
        have hall : e.splits.all (fun s => s.shares == 0) = true := by
          rw [List.all_eq_true]
          intro s hs
          exact beq_iff_eq.mpr (hc s hs)
        rw [hall] at h1
        simp at h1
      rcases hex with ⟨s0, hs0, hne⟩
      have hpos : 0 < s0.shares := lt_of_le_of_ne (hsh s0 hs0) (Ne.symm hne)
      have hle : s0.shares ≤ (e.splits.map (fun s => s.shares)).sum := by
        apply List.single_le_sum
        · intro z hz
          rcases List.mem_map.mp hz with ⟨s, hs, rfl⟩
          exact hsh s hs
        · exact List.mem_map.mpr ⟨s0, hs0, rfl⟩
      omega
  have hlen : 0 < e.splits.length := by
    by_contra hc
    push_neg at hc
    have hne : e.splits = [] := List.length_eq_zero.mp (Nat.le_zero.mp hc)
    rw [hne] at hS
    simp at hS
  have hb : 0 ≤ e.amount - (e.splits.map (fun s => s.adjustment)).sum := by
    omega
  have hxs : ∀ x ∈ e.splits.map (fun s =>
      (e.amount - (e.splits.map (fun s => s.adjustment)).sum) * s.shares),
      0 ≤ x := by
    intro z hz
    rcases List.mem_map.mp hz with ⟨s, hs, rfl⟩
    exact mul_nonneg hb (hsh s hs)
  have hbounds := sum_tdiv_bounds _ hS _ hxs
  have hsum_xs : (e.splits.map (fun s =>
      (e.amount - (e.splits.map (fun s => s.adjustment)).sum) * s.shares)).sum
      = (e.amount - (e.splits.map (fun s => s.adjustment)).sum)
          * (e.splits.map (fun s => s.shares)).sum :=
    List.sum_map_mul_left _ _ _
  rw [hsum_xs] at hbounds
  have hmaplen : (e.splits.map (fun s =>
      (e.amount - (e.splits.map (fun s => s.adjustment)).sum) * s.shares)).length
      = e.splits.length := List.length_map _ _
  rw [hmaplen] at hbounds
  -- abbreviations for the linear arithmetic
  have hlenZ : (0 : Int) < (e.splits.length : Int) := by exact_mod_cast hlen
  constructor
  · -- 0 ≤ amount - sum: T ≤ base
    have hT := hbounds.1
    have : ((e.splits.map (fun s =>
        (e.amount - (e.splits.map (fun s => s.adjustment)).sum) * s.shares)).map
          (fun x => x.tdiv ((e.splits.map (fun s => s.shares)).sum))).sum
        ≤ e.amount - (e.splits.map (fun s => s.adjustment)).sum := by
      have := le_of_mul_le_mul_left (by
        calc (e.splits.map (fun s => s.shares)).sum
              * ((e.splits.map (fun s =>
                  (e.amount - (e.splits.map (fun s => s.adjustment)).sum)
                    * s.shares)).map
                (fun x => x.tdiv ((e.splits.map (fun s => s.shares)).sum))).sum
            ≤ (e.amount - (e.splits.map (fun s => s.adjustment)).sum)
                * (e.splits.map (fun s => s.shares)).sum := hT
          _ = (e.splits.map (fun s => s.shares)).sum
                * (e.amount - (e.splits.map (fun s => s.adjustment)).sum) := by
                  ring) hS
      exact this
    omega
  · -- amount - sum < participant count: base < T + n
    have hT := hbounds.2
    by_contra hc
    push_neg at hc
    -- hc : len ≤ amount - sum = base - T
    have hstep : ((e.splits.map (fun s =>
        (e.amount - (e.splits.map (fun s => s.adjustment)).sum) * s.shares)).map
          (fun x => x.tdiv ((e.splits.map (fun s => s.shares)).sum))).sum
        + (e.splits.length : Int)
        ≤ e.amount - (e.splits.map (fun s => s.adjustment)).sum := by
      omega
    have hmul := mul_le_mul_of_nonneg_left hstep (le_of_lt hS)
    rw [mul_add] at hmul
    have hSlen : (e.splits.map (fun s => s.shares)).sum
        * (e.splits.length : Int)
        > ((e.splits.map (fun s => s.shares)).sum - 1)
            * (e.splits.length : Int) :=
      mul_lt_mul_of_pos_right (by omega) hlenZ
    have hcomm : (e.amount - (e.splits.map (fun s => s.adjustment)).sum)
        * (e.splits.map (fun s => s.shares)).sum
        = (e.splits.map (fun s => s.shares)).sum
            * (e.amount - (e.splits.map (fun s => s.adjustment)).sum) := by
      ring
    rw [hcomm] at hT
    omega

/-- C6 counterexample: two validated expenses whose truncation remainder is
negative — `exC6a` through a negative base (adjustments exceed the amount),
`exC6b` through negative percentage shares — so
`0 <= amount - sum(debt)` fails as stated. -/
theorem percentage_shares_truncation_bound_cex :
    (validate_expense_split exC6a.type exC6a.amount exC6a.splits = true
      ∧ calculate_expense_debts_inner exC6a = some [(1, 11), (2, 0)]
      ∧ exC6a.amount - (([((1 : UserId), (11 : Int)), (2, 0)].map
          (fun d => d.2)).sum) = -1
      ∧ (-1 : Int) < 0)
    ∧ (validate_expense_split exC6b.type exC6b.amount exC6b.splits = true
      ∧ calculate_expense_debts_inner exC6b = some [(1, 0), (2, 0), (3, 2)]
      ∧ exC6b.amount - (([((1 : UserId), (0 : Int)), (2, 0), (3, 2)].map
          (fun d => d.2)).sum) = -1
      ∧ (-1 : Int) < 0) := by
  decide

/-- Witness for C6 amended at a concrete expense. -/
theorem percentage_shares_truncation_bound_witness :
    (exC6w.type = ExpenseType.PERCENTAGE ∨ exC6w.type = ExpenseType.SHARES)
      ∧ validate_expense_split exC6w.type exC6w.amount exC6w.splits = true
      ∧ (∀ s ∈ exC6w.splits, 0 ≤ s.shares)
      ∧ (exC6w.splits.map (fun s => s.adjustment)).sum ≤ exC6w.amount
      ∧ calculate_expense_debts_inner exC6w = some [(1, 66), (2, 66), (3, 66)]
      ∧ (0 ≤ exC6w.amount
          - (([((1 : UserId), (66 : Int)), (2, 66), (3, 66)].map
              (fun d => d.2)).sum)
        ∧ exC6w.amount - (([((1 : UserId), (66 : Int)), (2, 66), (3, 66)].map
              (fun d => d.2)).sum) < (exC6w.splits.length : Int)) :=
  ⟨Or.inr rfl, by decide, by decide, by decide, by decide,
   percentage_shares_truncation_bound exC6w (Or.inr rfl) (by decide)
     (by decide) (by decide) _ (by decide)⟩

theorem parseDecimal_nodot (cs : List Char) (h : ∀ c ∈ cs, (c == '.') = false) :
    parseDecimal cs = (digitsToNat cs : Rat) := by
  unfold parseDecimal
  rw [List.takeWhile_eq_self_iff.mpr (by intro a ha; simpa using h a ha),
    List.dropWhile_eq_nil_iff.mpr (by intro a ha; simpa using h a ha)]
  simp [digitsToNat]

theorem digitChar_props (d : Nat) (hd : d < 10) :
    isNumericPy (digitChar d) = true
      ∧ (digitChar d == '.') = false
      ∧ isSpacePy (digitChar d) = false
      ∧ ONE_CHAR (digitChar d) = none
      ∧ isAlphaPy (digitChar d) = false
      ∧ (digitChar d == '\n') = false
      ∧ digitVal (digitChar d) = d := by
  interval_cases d <;> decide

theorem natToChars_mem (n : Nat) :
    ∀ c ∈ natToChars n, ∃ d, d < 10 ∧ c = digitChar d := by
  intro c hc
  unfold natToChars at hc
  by_cases h : n = 0
  · rw [if_pos h] at hc
    simp at hc
    exact ⟨0, by omega, by rw [hc]; rfl⟩
  · rw [if_neg h] at hc
    rcases List.mem_map.mp hc with ⟨d, hd, rfl⟩
    exact ⟨d, Nat.digits_lt_base (by norm_num) (List.mem_reverse.mp hd), rfl⟩

theorem natToChars_no_dot (n : Nat) :
    ∀ c ∈ natToChars n, (c == '.') = false := by
  intro c hc
  rcases natToChars_mem n c hc with ⟨d, hd, rfl⟩
  exact (digitChar_props d hd).2.1

theorem takeNum_all_digits (cs : List Char)
    (h : ∀ c ∈ cs, isNumericPy c = true ∧ (c == '.') = false) :
    ∀ (col : Nat) (acc : List Char) (hd : Bool) (loc : Location),
      takeNum cs col acc hd loc = .ok (acc ++ cs, col + cs.length, []) := by
  induction cs with
  | nil =>
    intro col acc hd loc
    simp [takeNum]
  | cons c rest ih =>
    intro col acc hd loc
    have hc := h c (List.mem_cons_self c rest)
    simp only [takeNum]
    rw [if_neg (by rw [hc.2]; exact Bool.false_ne_true), if_pos hc.1,
      ih (fun z hz => h z (List.mem_cons_of_mem c hz)) (col + 1) (acc ++ [c])
        hd loc]
    simp [List.append_assoc]
    omega

theorem tokenizeGo_number (fuel : Nat) (c : Char) (cs : List Char)
    (line col : Nat)
    (hc : isNumericPy c = true ∧ (c == '.') = false ∧ isSpacePy c = false
      ∧ ONE_CHAR c = none ∧ isAlphaPy c = false ∧ (c == '\n') = false)
    (hcs : ∀ z ∈ cs, isNumericPy z = true ∧ (z == '.') = false) :
    tokenizeGo (fuel + 1) (c :: cs) line col
      = .ok [⟨.NUMBER, c :: cs, ⟨line, col⟩⟩] := by
  simp only [tokenizeGo, hc.1, hc.2.1, hc.2.2.1, hc.2.2.2.1, hc.2.2.2.2.1,
    hc.2.2.2.2.2, Bool.false_eq_true, Bool.true_or, if_false, if_true]
  rw [takeNum_all_digits cs hcs (col + 1) [c] false ⟨line, col⟩]
  simp only []
  rw [show tokenizeGo fuel [] line (col + 1 + cs.length) = .ok [] from by
    cases fuel <;> rfl]
  rfl

theorem tokenizeGo_natToChars (n : Nat) (line col : Nat) :
    tokenizeGo ((natToChars n).length + 1) (natToChars n) line col
      = .ok [⟨.NUMBER, natToChars n, ⟨line, col⟩⟩] := by
  obtain ⟨c, cs, hsplit⟩ : ∃ c cs, natToChars n = c :: cs := by
    cases hh : natToChars n with
    | nil =>
      exfalso
      unfold natToChars at hh
      by_cases h : n = 0
      · rw [if_pos h] at hh
        exact List.noConfusion hh
      · rw [if_neg h] at hh
        rw [List.map_eq_nil_iff, List.reverse_eq_nil_iff] at hh
        exact Nat.digits_ne_nil_iff_ne_zero.mpr h hh
    | cons c cs => exact ⟨c, cs, rfl⟩
  have hmem := natToChars_mem n
  rw [hsplit] at hmem ⊢
  rcases hmem c (List.mem_cons_self c cs) with ⟨d, hd, rfl⟩
  have hp := digitChar_props d hd
  apply tokenizeGo_number
  · exact ⟨hp.1, hp.2.1, hp.2.2.1, hp.2.2.2.1, hp.2.2.2.2.1, hp.2.2.2.2.2.1⟩
  · intro z hz
    rcases hmem z (List.mem_cons_of_mem _ hz) with ⟨d', hd', rfl⟩
    have hp' := digitChar_props d' hd'
    exact ⟨hp'.1, hp'.2.1⟩

theorem foldl_reverse_digits (l : List Nat) (h : ∀ d ∈ l, d < 10) :
    digitsToNat (l.reverse.map digitChar) = Nat.ofDigits 10 l := by
  induction l with
  | nil => rfl
  | cons d t ih =>
    have hd := h d (List.mem_cons_self d t)
    have iht := ih (fun z hz => h z (List.mem_cons_of_mem d hz))
    rw [List.reverse_cons, List.map_append]
    unfold digitsToNat at iht ⊢
    rw [List.foldl_append, iht]
    simp only [List.map_cons, List.map_nil, List.foldl_cons, List.foldl_nil]
    rw [(digitChar_props d hd).2.2.2.2.2.2, Nat.ofDigits_cons]
    ring

theorem digitsToNat_natToChars (n : Nat) : digitsToNat (natToChars n) = n := by
  unfold natToChars
  by_cases h : n = 0
  · rw [if_pos h, h]
    decide
  · rw [if_neg h,
      foldl_reverse_digits _ (fun d hd => Nat.digits_lt_base (by norm_num) hd)]
    exact Nat.ofDigits_digits 10 n

theorem evaluate_natToChars (n : Nat) :
    evaluate (natToChars n) [] = .ok (n : Rat) := by
  unfold evaluate tokenize
  rw [tokenizeGo_natToChars n 1 1]
  simp [evaluateExpr, nud, evalLoop]
  rw [parseDecimal_nodot _ (natToChars_no_dot n), digitsToNat_natToChars]

theorem evaluate_strOfInt (n : Int) :
    evaluate (strOfInt n) [] = .ok (n : Rat) := by
  unfold strOfInt
  by_cases hn : n < 0
  · rw [if_pos hn]
    have htok : tokenize ('-' :: natToChars n.natAbs)
        = .ok [⟨.MINUS, ['-'], ⟨1, 1⟩⟩,
            ⟨.NUMBER, natToChars n.natAbs, ⟨1, 2⟩⟩] := by
      unfold tokenize
      rw [List.length_cons]
      simp only [tokenizeGo]
      rw [show isSpacePy '-' = false from rfl,
        show ONE_CHAR '-' = some TokenType.MINUS from rfl]
      simp only [Bool.false_eq_true, if_false,
        show ('-' == '\n') = false from rfl]
      rw [tokenizeGo_natToChars n.natAbs 1 2]
      rfl
    unfold evaluate
    rw [htok]
    simp [evaluateExpr, nud, evalLoop, UNARY_OPS]
    rw [parseDecimal_nodot _ (natToChars_no_dot _), digitsToNat_natToChars]
    have h2 : ((n.natAbs : Nat) : Rat) = -(n : Rat) := by
      rw [Int.cast_natAbs, abs_of_neg hn]
      push_cast
      ring
    rw [h2, neg_neg]
  · rw [if_neg hn]
    rw [evaluate_natToChars n.natAbs]
    have h2 : ((n.natAbs : Nat) : Rat) = (n : Rat) := by
      rw [Int.cast_natAbs, abs_of_nonneg (le_of_not_lt hn)]
    rw [h2]

theorem parseDecimal_two : parseDecimal ['2'] = 2 := by
  rw [parseDecimal_nodot _ (by decide), show digitsToNat ['2'] = 2 by decide]
  norm_num

theorem parseDecimal_three : parseDecimal ['3'] = 3 := by
  rw [parseDecimal_nodot _ (by decide), show digitsToNat ['3'] = 3 by decide]
  norm_num

theorem parseDecimal_four : parseDecimal ['4'] = 4 := by
  rw [parseDecimal_nodot _ (by decide), show digitsToNat ['4'] = 4 by decide]
  norm_num

/-- C8: the evaluator implements the standard precedence: in the operator
tables, `+`/`-` bind with left binding power 1, looser than `*`/`/` at 2,
and unary minus binds tighter still at 3 while `(` resets to 0; consequently
`2 + 3 * 4` evaluates to 14, `(2 + 3) * 4` to 20, `str(n)` round-trips for
every integer `n`, and `-x` evaluates to the negation of the environment
value, for every decimal `v`. -/
theorem evaluate_precedence :
    ((BINARY_OPS TokenType.PLUS).map (fun op => op.lbp) = some 1
      ∧ (BINARY_OPS TokenType.MINUS).map (fun op => op.lbp) = some 1
      ∧ (BINARY_OPS TokenType.STAR).map (fun op => op.lbp) = some 2
      ∧ (BINARY_OPS TokenType.SLASH).map (fun op => op.lbp) = some 2
      ∧ (UNARY_OPS TokenType.MINUS).map (fun op => op.rbp) = some 3
      ∧ (UNARY_OPS TokenType.LPAREN).map (fun op => op.rbp) = some 0)
      ∧ evaluate ['2', ' ', '+', ' ', '3', ' ', '*', ' ', '4'] [] = .ok 14
      ∧ evaluate ['(', '2', ' ', '+', ' ', '3', ')', ' ', '*', ' ', '4'] []
          = .ok 20
      ∧ (∀ n : Int, evaluate (strOfInt n) [] = .ok (n : Rat))
      ∧ (∀ v : Rat, evaluate ['-', 'x'] [(['x'], v)] = .ok (-v)) := by
  refine ⟨⟨rfl, rfl, rfl, rfl, rfl, rfl⟩, ?_, ?_, evaluate_strOfInt, ?_⟩
  · have htok : tokenize ['2', ' ', '+', ' ', '3', ' ', '*', ' ', '4'] = .ok
        [⟨.NUMBER, ['2'], ⟨1, 1⟩⟩, ⟨.PLUS, ['+'], ⟨1, 3⟩⟩,
         ⟨.NUMBER, ['3'], ⟨1, 5⟩⟩, ⟨.STAR, ['*'], ⟨1, 7⟩⟩,
         ⟨.NUMBER, ['4'], ⟨1, 9⟩⟩] := by decide
    unfold evaluate
    rw [htok]
    simp [evaluateExpr, nud, evalLoop, led, BINARY_OPS, UNARY_OPS,
      parseDecimal_two, parseDecimal_three, parseDecimal_four]
    norm_num
  · have htok : tokenize ['(', '2', ' ', '+', ' ', '3', ')', ' ', '*', ' ', '4']
        = .ok [⟨.LPAREN, ['('], ⟨1, 1⟩⟩, ⟨.NUMBER, ['2'], ⟨1, 2⟩⟩,
          ⟨.PLUS, ['+'], ⟨1, 4⟩⟩, ⟨.NUMBER, ['3'], ⟨1, 6⟩⟩,
          ⟨.RPAREN, [')'], ⟨1, 7⟩⟩, ⟨.STAR, ['*'], ⟨1, 9⟩⟩,
          ⟨.NUMBER, ['4'], ⟨1, 11⟩⟩] := by decide
    unfold evaluate
    rw [htok]
    simp [evaluateExpr, nud, evalLoop, led, BINARY_OPS, UNARY_OPS,
      parseDecimal_two, parseDecimal_three, parseDecimal_four]
    norm_num
  · intro v
    have htok : tokenize ['-', 'x'] = .ok
        [⟨.MINUS, ['-'], ⟨1, 1⟩⟩, ⟨.NAME, ['x'], ⟨1, 2⟩⟩] := by decide
    unfold evaluate
    rw [htok]
    simp [evaluateExpr, nud, evalLoop, led, BINARY_OPS, UNARY_OPS, envLookup]

/-- C9 counterexample: on premature end of input (as with the trailing
operator of `1 +`), `evaluate` raises SyntaxError with `None` as its
location, not an error carrying a location as the claim states for all four
input classes. -/
theorem evaluate_premature_end_carries_no_location :
    evaluate ['1', ' ', '+'] []
      = .error (.syntaxErr .unexpectedEndOfInput none) := by
  decide

/-- C9 amended: each failing class raises SyntaxError and never returns a
value; the unknown-name error names the unknown name and carries a location,
the unmatched left parenthesis and the stray-operator errors carry
locations, but the premature-end errors (including a trailing binary
operator) carry no location (`None`). -/
theorem evaluate_error_cases :
    evaluate ['y'] [] = .error (.syntaxErr (.unknownName ['y']) (some ⟨1, 1⟩))
      ∧ evaluate ['1', ' ', '+'] []
          = .error (.syntaxErr .unexpectedEndOfInput none)
      ∧ evaluate ['(', '1'] []
          = .error (.syntaxErr .expectedRightParenthesis (some ⟨1, 3⟩))
      ∧ evaluate ['1', ' ', '+', ' ', '*', ' ', '2'] []
          = .error (.syntaxErr (.unexpectedToken ['*']) (some ⟨1, 5⟩)) := by
  refine ⟨by decide, by decide, by decide, by decide⟩

/-- C10: division is unguarded — `evaluate("1/0")` raises the decimal
division-by-zero error, which is not a SyntaxError, instead of returning a
value or reporting a located syntax error. -/
theorem evaluate_division_by_zero_unguarded :
    evaluate ['1', '/', '0'] [] = .error ExprError.divisionByZero := by
  have htok : tokenize ['1', '/', '0'] = .ok
      [⟨.NUMBER, ['1'], ⟨1, 1⟩⟩, ⟨.SLASH, ['/'], ⟨1, 2⟩⟩,
       ⟨.NUMBER, ['0'], ⟨1, 3⟩⟩] := by decide
  have p0 : parseDecimal ['0'] = 0 := by
    rw [parseDecimal_nodot _ (by decide), show digitsToNat ['0'] = 0 by decide]
    norm_num
  unfold evaluate
  rw [htok]
  simp [evaluateExpr, nud, evalLoop, led, BINARY_OPS, UNARY_OPS, p0]

end Splitsilly
